import Mathlib

/-!
Verification of the CDCL SAT solver core in `src/cdcl_solver.py` of the
PyCDCL-SAT-Toolkit repository.  The Python module is shallowly embedded:
the solver object becomes a `CDCLSolver` structure, every method becomes a
Lean function on that structure, the `defaultdict(list)` watch index becomes
an association list with default `[]`, exceptions become an `Except PyError`
result, and the two `while` loops that are not structurally recursive
(`propagate` and the resolution loop of `resolve_conflict`) take an explicit
fuel argument, with fuel exhaustion reported as a distinguished error that
the theorems rule out where needed.
-/

namespace PyCDCL

/-- A literal is a signed integer (nonzero for well-formed input); a clause is
a Python list of literals. -/
abbrev Clause := List Int

/-- Trail entries `(var, lit, level)` exactly as pushed by `assign_var`. -/
abbrev TrailEntry := Nat × Int × Nat

/-- Ways a run of the Python program terminates abnormally.
`valueError` is the `raise ValueError("Empty clause encountered (UNSAT).")`
in `CDCLSolver.__init__`; `attributeError` is the crash of
`self.pick_branch_var()` in `solve` (the class only defines `branch_var`);
`parseError` covers `int(x)` failures and the `parts[2]` IndexError in
`parse_dimacs`; `outOfFuel` is the embedding's fuel exhaustion artifact. -/
inductive PyError where
  | valueError
  | attributeError
  | parseError
  | outOfFuel
deriving DecidableEq, Repr

/-- The `defaultdict(list)` mapping literals to lists of watching clause
indices, embedded as an association list; absent keys read as `[]`. -/
abbrev WatchMap := List (Int × List Nat)

/-- Read `watch_lit_to_clauses[l]` (defaultdict: missing keys give `[]`). -/
def wlGet (m : WatchMap) (l : Int) : List Nat :=
  (m.lookup l).getD []

/-- Store a new list under key `l`, keeping other keys unchanged. -/
def wlSet (m : WatchMap) (l : Int) (v : List Nat) : WatchMap :=
  if m.any (fun p => p.1 = l) then
    m.map (fun p => if p.1 = l then (l, v) else p)
  else m ++ [(l, v)]

/-- The solver object: all the attributes created by `CDCLSolver.__init__`.
Array-valued attributes (`assign_val`, `assign_level`, `reason`,
`var_activity`) are total functions on variable indices; `watchers` maps a
clause index to its pair of watched literals; `prop_queue` is a FIFO list
with the head being the front of the deque. -/
structure CDCLSolver where
  clauses : List Clause
  num_vars : Nat
  assign_val : Nat → Int
  assign_level : Nat → Nat
  reason : Nat → Option Nat
  level : Nat
  watch_lit_to_clauses : WatchMap
  watchers : Nat → Int × Int
  assign_stack : List TrailEntry
  prop_queue : List Int
  var_activity : Nat → ℚ
  decay : ℚ
  conflict_count : Nat
  decay_interval : Nat

/-- The watch selection of `__init__` lines 38-41 and `resolve_conflict`
lines 186-189: the first two literals of a clause, or its sole literal
twice. -/
def watchPair : Clause → Int × Int
  | [] => (0, 0)
  | [l] => (l, l)
  | l :: l2 :: _ => (l, l2)

/-- The watch-registration loop of `CDCLSolver.__init__` (lines 37-47):
for clause `i`, watch its first two literals (the sole literal twice for a
unit clause), raising `ValueError` on an empty clause. -/
def initWatchLoop : List Clause → Nat → WatchMap → (Nat → Int × Int) →
    Except PyError (WatchMap × (Nat → Int × Int))
  | [], _, m, w => .ok (m, w)
  | c :: rest, i, m, w =>
    match c with
    | [] => .error .valueError
    | _ :: _ =>
      let w1 := (watchPair c).1
      let w2 := (watchPair c).2
      let wNew : Nat → Int × Int := fun j => if j = i then (w1, w2) else w j
      let m1 := wlSet m w1 (wlGet m w1 ++ [i])
      let m2 := if w2 = w1 then m1 else wlSet m1 w2 (wlGet m1 w2 ++ [i])
      initWatchLoop rest (i + 1) m2 wNew

/-- `CDCLSolver.__init__(clauses, num_vars)`. -/
def CDCLSolver.init (clauses : List Clause) (num_vars : Nat) :
    Except PyError CDCLSolver :=
  match initWatchLoop clauses 0 [] (fun _ => (0, 0)) with
  | .error e => .error e
  | .ok (m, w) =>
      .ok { clauses := clauses
            num_vars := num_vars
            assign_val := fun _ => 0
            assign_level := fun _ => 0
            reason := fun _ => none
            level := 0
            watch_lit_to_clauses := m
            watchers := w
            assign_stack := []
            prop_queue := []
            var_activity := fun _ => 0
            decay := 19 / 20
            conflict_count := 0
            decay_interval := 50 }

/-- `CDCLSolver.assign_var` (lines 49-55). -/
def CDCLSolver.assign_var (s : CDCLSolver) (lit : Int) (level : Nat)
    (reason : Option Nat) : CDCLSolver :=
  let var := lit.natAbs
  { s with
    assign_val := fun v => if v = var then (if 0 < lit then 1 else -1) else s.assign_val v
    assign_level := fun v => if v = var then level else s.assign_level v
    reason := fun v => if v = var then reason else s.reason v
    assign_stack := s.assign_stack ++ [(var, lit, level)]
    prop_queue := s.prop_queue ++ [lit] }

/-- The truth test used at line 73 of `propagate`:
`val != 0 and ((l > 0 and val == 1) or (l < 0 and val == -1))`. -/
def litSat (s : CDCLSolver) (l : Int) : Bool :=
  decide (s.assign_val l.natAbs ≠ 0 ∧
    ((0 < l ∧ s.assign_val l.natAbs = 1) ∨ (l < 0 ∧ s.assign_val l.natAbs = -1)))

/-- The non-false test used at line 81 of `propagate`:
`val == 0 or (l > 0 and val == 1) or (l < 0 and val == -1)`. -/
def litNonFalse (s : CDCLSolver) (l : Int) : Bool :=
  decide (s.assign_val l.natAbs = 0 ∨
    (0 < l ∧ s.assign_val l.natAbs = 1) ∨ (l < 0 ∧ s.assign_val l.natAbs = -1))

/-- A literal is false under the current assignment. -/
def litFalse (s : CDCLSolver) (l : Int) : Bool :=
  ! litNonFalse s l

/-- The body of `for ci in list(self.watch_lit_to_clauses[target])` in
`propagate` (lines 62-90), for a single clause index `ci`.  Returns the
updated solver and `some ci` when line 89 `return ci` fires. -/
def processWatchedClause (s : CDCLSolver) (target : Int) (ci : Nat) :
    CDCLSolver × Option Nat :=
  let w1 := (s.watchers ci).1
  let w2 := (s.watchers ci).2
  if w1 = target ∨ w2 = target then
    let other := if w1 = target then w2 else w1
    if litSat s other then (s, none)
    else
      match (s.clauses.getD ci []).find? (fun lit2 =>
          decide (lit2 ≠ w1) && decide (lit2 ≠ w2) && litNonFalse s lit2) with
      | some lit2 =>
          let wch : Nat → Int × Int := fun j =>
            if j = ci then (if w1 = target then (lit2, w2) else (w1, lit2))
            else s.watchers j
          let m1 := wlSet s.watch_lit_to_clauses lit2
            (wlGet s.watch_lit_to_clauses lit2 ++ [ci])
          let m2 := wlSet m1 target ((wlGet m1 target).erase ci)
          ({ s with watchers := wch, watch_lit_to_clauses := m2 }, none)
      | none =>
          if s.assign_val other.natAbs ≠ 0 then (s, some ci)
          else (s.assign_var other s.level (some ci), none)
  else (s, none)

/-- The inner `for` loop of `propagate` over a snapshot of the watcher list
(Python's `list(...)` copy), threading the mutated solver. -/
def processWatchList : CDCLSolver → Int → List Nat → CDCLSolver × Option Nat
  | s, _, [] => (s, none)
  | s, target, ci :: rest =>
    match processWatchedClause s target ci with
    | (s1, some c) => (s1, some c)
    | (s1, none) => processWatchList s1 target rest

/-- `CDCLSolver.propagate` (lines 57-91) with explicit fuel for the
`while self.prop_queue` loop; `none` means the fuel ran out.  On success the
returned `Option Nat` is `None`/a conflict clause index as in the source. -/
def CDCLSolver.propagate (fuel : Nat) (s : CDCLSolver) :
    Option (CDCLSolver × Option Nat) :=
  match fuel with
  | 0 => none
  | f + 1 =>
    match s.prop_queue with
    | [] => some (s, none)
    | lit :: rest =>
      let s1 := { s with prop_queue := rest }
      let target := -lit
      match processWatchList s1 target (wlGet s1.watch_lit_to_clauses target) with
      | (s2, some ci) => some (s2, some ci)
      | (s2, none) => CDCLSolver.propagate f s2

/-- `CDCLSolver.branch_var` (lines 93-104): the unassigned variable of
maximal activity, smallest index on ties (strict `>` improvement). -/
def CDCLSolver.branch_var (s : CDCLSolver) : Option Nat :=
  (((List.range s.num_vars).map (· + 1)).foldl
    (fun (acc : Option Nat × ℚ) v =>
      if s.assign_val v = 0 ∧ acc.2 < s.var_activity v then (some v, s.var_activity v)
      else acc)
    (none, -1)).1

/-- The body of `CDCLSolver.backtrack`, popping from the top of the trail
while the top entry's level exceeds `bl`; the fuel is the trail length. -/
def backtrackAux (s : CDCLSolver) (bl : Nat) : Nat → CDCLSolver
  | 0 => s
  | f + 1 =>
    match s.assign_stack.getLast? with
    | none => s
    | some (var, _lit, lvl) =>
      if bl < lvl then
        backtrackAux
          { s with
            assign_stack := s.assign_stack.dropLast
            assign_val := fun v => if v = var then 0 else s.assign_val v
            assign_level := fun v => if v = var then 0 else s.assign_level v
            reason := fun v => if v = var then none else s.reason v } bl f
      else s

/-- `CDCLSolver.backtrack` (lines 106-111). -/
def CDCLSolver.backtrack (s : CDCLSolver) (backtrack_level : Nat) : CDCLSolver :=
  backtrackAux s backtrack_level s.assign_stack.length

/-- The initial unit-clause pass of `solve` (lines 114-123).  The Boolean is
`false` when the pass hits `return False` (contradictory unit clauses). -/
def unitLoop : CDCLSolver → List Clause → CDCLSolver × Bool
  | s, [] => (s, true)
  | s, c :: rest =>
    match c with
    | [lit] =>
      let var := lit.natAbs
      let val : Int := if 0 < lit then 1 else -1
      if s.assign_val var ≠ 0 then
        if s.assign_val var ≠ val then (s, false) else unitLoop s rest
      else unitLoop (s.assign_var lit 0 none) rest
    | _ => unitLoop s rest

/-- The `all(self.assign_val[i] != 0 for i in range(1, num_vars+1))` test of
`solve` line 128. -/
def allAssigned (s : CDCLSolver) : Bool :=
  (List.range s.num_vars).all (fun i => s.assign_val (i + 1) != 0)

/-- Fuel handed to `propagate` by the embedded driver: one unit per queued
literal plus one per variable plus one, which is enough for the level-0
propagation of any well-formed formula. -/
def solveFuel (s : CDCLSolver) : Nat :=
  s.prop_queue.length + s.num_vars + 1

/-- `CDCLSolver.solve` (lines 113-140).  After the unit pass and the initial
propagation, the driver loop either returns a verdict at once (level-0
conflict, or every variable already assigned) or calls the nonexistent
method `self.pick_branch_var()` at line 130 — the class defines only
`branch_var` — raising `AttributeError`. -/
def CDCLSolver.solve (s0 : CDCLSolver) : Except PyError (Bool × CDCLSolver) :=
  match unitLoop s0 s0.clauses with
  | (s1, false) => .ok (false, s1)
  | (s1, true) =>
    match CDCLSolver.propagate (solveFuel s1) s1 with
    | none => .error .outOfFuel
    | some (s2, some _) => .ok (false, s2)
    | some (s2, none) =>
      if allAssigned s2 then .ok (true, s2) else .error .attributeError

/-- The backward-resolution loop of `resolve_conflict` (lines 147-170),
with fuel; it does not mutate the solver, only the `learned` clause.
Note the source's membership test `lit in learned` checks the assigned
polarity itself, exactly as written at line 155. -/
def computeLearned (s : CDCLSolver) : Nat → Clause → Option Clause
  | 0, _ => none
  | f + 1, learned =>
    if learned.countP (fun l => decide (s.assign_level l.natAbs = s.level)) ≤ 1 then
      some learned
    else
      match s.assign_stack.reverse.find? (fun e =>
          decide (e.2.2 = s.level) && learned.contains e.2.1) with
      | none => some learned
      | some e =>
        let lastAssigned := e.2.1
        match s.reason lastAssigned.natAbs with
        | none => some learned
        | some reasonIdx =>
          let reasonClause := s.clauses.getD reasonIdx []
          let pos := lastAssigned
          let neg := -lastAssigned
          let base := learned.filter (fun l => decide (l ≠ pos) && decide (l ≠ neg))
          let newClause := reasonClause.foldl (fun acc l =>
            if l ≠ pos ∧ l ≠ neg ∧ ¬ acc.contains l then acc ++ [l] else acc) base
          computeLearned s f newClause

/-- `CDCLSolver.resolve_conflict` (lines 142-201) with fuel for the
resolution loop.  Returns `some (b, s')` for the Python return value `b`
and mutated solver `s'`, or `none` on fuel exhaustion. -/
def CDCLSolver.resolve_conflict (fuel : Nat) (s : CDCLSolver) (clause_idx : Nat) :
    Option (Bool × CDCLSolver) :=
  if s.level = 0 then some (false, s)
  else
    let s := { s with conflict_count := s.conflict_count + 1 }
    match computeLearned s fuel (s.clauses.getD clause_idx []) with
    | none => none
    | some learned =>
      let act1 := learned.foldl
        (fun (a : Nat → ℚ) l => fun v => if v = l.natAbs then a l.natAbs + 1 else a v)
        s.var_activity
      let act2 := if s.conflict_count % s.decay_interval = 0 then
          (fun v => if 1 ≤ v ∧ v ≤ s.num_vars then act1 v * s.decay else act1 v)
        else act1
      let btl := learned.foldl (fun acc l =>
        let lvl := s.assign_level l.natAbs
        if lvl ≠ s.level ∧ acc < lvl then lvl else acc) 0
      let s2 := CDCLSolver.backtrack { s with var_activity := act2 } btl
      let s3 := { s2 with level := btl, clauses := s2.clauses ++ [learned] }
      let ci := s3.clauses.length - 1
      match learned with
      | [] => some (false, s3)
      | _ :: _ =>
        let w1 := (watchPair learned).1
        let w2 := (watchPair learned).2
        let m1 := wlSet s3.watch_lit_to_clauses w1 (wlGet s3.watch_lit_to_clauses w1 ++ [ci])
        let m2 := if w2 = w1 then m1 else wlSet m1 w2 (wlGet m1 w2 ++ [ci])
        let s4 := { s3 with
          watchers := fun j => if j = ci then (w1, w2) else s3.watchers j
          watch_lit_to_clauses := m2 }
        if learned.length = 1 then
          if s4.assign_val w1.natAbs = 0 then
            some (true, s4.assign_var w1 s4.level (some ci))
          else some (true, s4)
        else some (true, s4)

/-- Python strings are embedded as character lists (Lean's `String`
functions do not evaluate inside the kernel, character lists do). -/
abbrev PyStr := List Char

/-- Python's `line.strip()`: drop leading and trailing whitespace. -/
def pyStrip (l : PyStr) : PyStr :=
  ((l.dropWhile Char.isWhitespace).reverse.dropWhile Char.isWhitespace).reverse

/-- Helper for `pySplit`, accumulating the current field reversed. -/
def pySplitGo : PyStr → PyStr → List PyStr
  | [], cur => if cur.isEmpty then [] else [cur.reverse]
  | c :: rest, cur =>
    if c.isWhitespace then
      if cur.isEmpty then pySplitGo rest []
      else cur.reverse :: pySplitGo rest []
    else pySplitGo rest (c :: cur)

/-- Python's `line.split()`: split on whitespace runs, no empty fields. -/
def pySplit (l : PyStr) : List PyStr :=
  pySplitGo l []

/-- Digit-string evaluation for `pyToInt?`. -/
def digitsToNatGo : PyStr → Nat → Option Nat
  | [], acc => some acc
  | c :: rest, acc =>
    if c.isDigit then digitsToNatGo rest (acc * 10 + (c.toNat - ('0').toNat))
    else none

/-- Python's `int(x)` on an already-stripped token: an optional sign
followed by at least one digit; `none` models the raised `ValueError`. -/
def pyToInt? : PyStr → Option Int
  | [] => none
  | c :: rest =>
    if c = '-' then
      match rest with
      | [] => none
      | _ => (digitsToNatGo rest 0).map (fun n => -(n : Int))
    else if c = '+' then
      match rest with
      | [] => none
      | _ => (digitsToNatGo rest 0).map (fun n => (n : Int))
    else (digitsToNatGo (c :: rest) 0).map (fun n => (n : Int))

/-- `[int(x) for x in toks if int(x) != 0]`, failing like `int` on a
non-integer token. -/
def parseLits : List PyStr → Except PyError (List Int)
  | [] => .ok []
  | t :: rest =>
    match pyToInt? t with
    | none => .error .parseError
    | some n =>
      match parseLits rest with
      | .error e => .error e
      | .ok ls => .ok (if n ≠ 0 then n :: ls else ls)

/-- The line loop of `parse_dimacs` (lines 8-18): skip blank/comment lines,
read `num_vars` from a `p` header, and keep only nonempty literal lists —
a line holding only `0` (an empty clause) is silently dropped.
`parseError` also models the IndexError of a short `p` line. -/
def parseLines : List PyStr → List Clause → Nat → Except PyError (List Clause × Nat)
  | [], acc, nv => .ok (acc, nv)
  | line :: rest, acc, nv =>
    let l := pyStrip line
    if l.isEmpty ∨ (['c'].isPrefixOf l) then parseLines rest acc nv
    else if ['p'].isPrefixOf l then
      match pyToInt? ((pySplit l).getD 2 []) with
      | none => .error .parseError
      | some n => parseLines rest acc n.toNat
    else
      match parseLits (pySplit l) with
      | .error e => .error e
      | .ok lits =>
        if lits.isEmpty then parseLines rest acc nv
        else parseLines rest (acc ++ [lits]) nv

/-- `parse_dimacs` (lines 4-19) on the file's lines. -/
def parse_dimacs (lines : List PyStr) : Except PyError (List Clause × Nat) :=
  parseLines lines [] 0

/-- The printed outcome of the `__main__` block: `UNSAT`, or `SAT` with the
signed-literal model (unassigned variables print as positive). -/
inductive Verdict where
  | sat (model : List Int)
  | unsat
deriving DecidableEq, Repr

/-- The `__main__` block (lines 203-223): parse, construct, solve, print. -/
def pyMain (lines : List PyStr) : Except PyError Verdict :=
  match parse_dimacs lines with
  | .error e => .error e
  | .ok (clauses, num_vars) =>
    match CDCLSolver.init clauses num_vars with
    | .error e => .error e
    | .ok solver =>
      match solver.solve with
      | .error e => .error e
      | .ok (true, s) =>
        .ok (.sat (((List.range num_vars).map (· + 1)).map (fun i =>
          if s.assign_val i = 1 then (i : Int)
          else if s.assign_val i = -1 then -(i : Int) else (i : Int))))
      | .ok (false, _) => .ok .unsat

/-! ## Logical semantics of CNF formulas -/

/-- Truth of a literal under a total Boolean assignment: a positive literal
is true when its variable is, a negative literal when its variable is not. -/
def litTrueUnder (M : Nat → Bool) (l : Int) : Bool :=
  if 0 < l then M l.natAbs else ! M l.natAbs

/-- A clause is satisfied when some literal is true. -/
def clauseSatUnder (M : Nat → Bool) (c : Clause) : Bool :=
  c.any (litTrueUnder M)

/-- A formula is satisfied when every clause is. -/
def formulaSatUnder (M : Nat → Bool) (cs : List Clause) : Prop :=
  ∀ c ∈ cs, clauseSatUnder M c = true

/-- CNF satisfiability. -/
def Satisfiable (cs : List Clause) : Prop :=
  ∃ M : Nat → Bool, formulaSatUnder M cs

/-- The model printed by `__main__` for a SAT verdict: variable `v` is true
unless `assign_val[v] == -1` (unassigned variables default to true). -/
def pyModel (s : CDCLSolver) : Nat → Bool :=
  fun v => s.assign_val v != -1

/-- Well-formed input as required by the spec (§6.1): literals are nonzero
and their variables lie in `{1..num_vars}`. -/
def WFFormula (clauses : List Clause) (num_vars : Nat) : Prop :=
  ∀ c ∈ clauses, ∀ l ∈ c, l ≠ 0 ∧ l.natAbs ≤ num_vars

/-! ## Solver-state invariants -/

/-- The solver's clause database is well formed in the sense of `WFFormula`. -/
def WFState (s : CDCLSolver) : Prop :=
  WFFormula s.clauses s.num_vars

/-- Every literal sitting in the propagation queue is currently true
(`assign_var` sets the value before enqueueing and level-0 assignments are
never undone). -/
def QueueInv (s : CDCLSolver) : Prop :=
  ∀ l ∈ s.prop_queue, litSat s l = true

/-- Every clause index stored in the watch index is a valid index into the
clause database. -/
def WatchIdxInv (s : CDCLSolver) : Prop :=
  ∀ p ∈ s.watch_lit_to_clauses, ∀ ci ∈ p.2, ci < s.clauses.length

/-- Both watched literals of every clause are literals of that clause. -/
def WatchersInClause (s : CDCLSolver) : Prop :=
  ∀ ci, ci < s.clauses.length →
    (s.watchers ci).1 ∈ s.clauses.getD ci [] ∧ (s.watchers ci).2 ∈ s.clauses.getD ci []

/-- Assignment values of in-range variables are `0`, `1` or `-1`. -/
def ValsBounded (s : CDCLSolver) : Prop :=
  ∀ v, v ≤ s.num_vars →
    s.assign_val v = 0 ∨ s.assign_val v = 1 ∨ s.assign_val v = -1

/-- Clause `ci` is registered in the watch index under literal `w`, and `w`
is either unassigned or its falsification is still pending in the queue. -/
def WatchPending (s : CDCLSolver) (ci : Nat) (w : Int) : Prop :=
  ci ∈ wlGet s.watch_lit_to_clauses w ∧
    (s.assign_val w.natAbs = 0 ∨ (-w) ∈ s.prop_queue)

/-- The key watched-literal property of one clause: either some watch is
true, or the clause is registered under a watch that is unassigned or whose
falsifying literal is still queued for propagation. -/
def ClauseWatchOK (s : CDCLSolver) (ci : Nat) : Prop :=
  litSat s (s.watchers ci).1 = true ∨ litSat s (s.watchers ci).2 = true ∨
  WatchPending s ci (s.watchers ci).1 ∨ WatchPending s ci (s.watchers ci).2

/-- `ClauseWatchOK` for every clause of the database. -/
def WatchInv (s : CDCLSolver) : Prop :=
  ∀ ci, ci < s.clauses.length → ClauseWatchOK s ci

/-- The watched-literal invariant bundle threaded through propagation; it
holds after construction and after every completed level-0 propagation. -/
def GoodState (s : CDCLSolver) : Prop :=
  WFState s ∧ QueueInv s ∧ WatchIdxInv s ∧ WatchersInClause s ∧
  ValsBounded s ∧ WatchInv s

/-- Mid-iteration form of the watch invariant while the snapshot suffix
`rem` of `list(self.watch_lit_to_clauses[target])` is still unprocessed. -/
def MidWatchInv (s : CDCLSolver) (target : Int) (rem : List Nat) : Prop :=
  ∀ ci, ci < s.clauses.length →
    ClauseWatchOK s ci ∨
      (((s.watchers ci).1 = target ∨ (s.watchers ci).2 = target) ∧ ci ∈ rem)

/-- Every current assignment is a logical consequence of the clause
database: any satisfying assignment agrees with it. -/
def EntailInv (s : CDCLSolver) : Prop :=
  ∀ M : Nat → Bool, formulaSatUnder M s.clauses →
    ∀ v, s.assign_val v ≠ 0 → M v = (s.assign_val v == 1)

/-- Both watched literals of clause `ci` are false. -/
def bothWatchesFalse (s : CDCLSolver) (ci : Nat) : Prop :=
  litFalse s (s.watchers ci).1 = true ∧ litFalse s (s.watchers ci).2 = true

instance decWFFormula (cl : List Clause) (n : Nat) : Decidable (WFFormula cl n) := by
  unfold WFFormula; infer_instance

instance decWFState (s : CDCLSolver) : Decidable (WFState s) := by
  unfold WFState; infer_instance

instance decQueueInv (s : CDCLSolver) : Decidable (QueueInv s) := by
  unfold QueueInv; infer_instance

instance decWatchIdxInv (s : CDCLSolver) : Decidable (WatchIdxInv s) := by
  unfold WatchIdxInv; infer_instance

instance decWatchersInClause (s : CDCLSolver) : Decidable (WatchersInClause s) := by
  unfold WatchersInClause; infer_instance

instance decValsBounded (s : CDCLSolver) : Decidable (ValsBounded s) := by
  unfold ValsBounded; infer_instance

instance decWatchPending (s : CDCLSolver) (ci : Nat) (w : Int) :
    Decidable (WatchPending s ci w) := by
  unfold WatchPending; infer_instance

instance decClauseWatchOK (s : CDCLSolver) (ci : Nat) :
    Decidable (ClauseWatchOK s ci) := by
  unfold ClauseWatchOK; infer_instance

instance decWatchInv (s : CDCLSolver) : Decidable (WatchInv s) := by
  unfold WatchInv; infer_instance

instance decGoodState (s : CDCLSolver) : Decidable (GoodState s) := by
  unfold GoodState; infer_instance

instance decBothWatchesFalse (s : CDCLSolver) (ci : Nat) :
    Decidable (bothWatchesFalse s ci) := by
  unfold bothWatchesFalse; infer_instance

instance decExceptEq {ε α : Type} [DecidableEq ε] [DecidableEq α] :
    DecidableEq (Except ε α) := fun a b =>
  match a, b with
  | .ok x, .ok y =>
    if h : x = y then isTrue (by rw [h]) else isFalse (by intro hc; cases hc; exact h rfl)
  | .error x, .error y =>
    if h : x = y then isTrue (by rw [h]) else isFalse (by intro hc; cases hc; exact h rfl)
  | .ok _, .error _ => isFalse (by intro hc; cases hc)
  | .error _, .ok _ => isFalse (by intro hc; cases hc)

/-- Number of unassigned variables among `1..num_vars`; together with the
queue length it bounds the remaining propagation work. -/
def unassignedCount (s : CDCLSolver) : Nat :=
  ((List.range s.num_vars).map (· + 1)).countP (fun v => decide (s.assign_val v = 0))

/-- The decision levels along the trail, bottom to top. -/
def trailLevels (s : CDCLSolver) : List Nat :=
  s.assign_stack.map (fun e => e.2.2)

/-- Spec invariant T1/P3: levels along the trail are non-decreasing. -/
def TrailMonotone (s : CDCLSolver) : Prop :=
  List.Chain' (· ≤ ·) (trailLevels s)

instance decTrailMonotone (s : CDCLSolver) : Decidable (TrailMonotone s) := by
  unfold TrailMonotone; infer_instance

/-! ## Concrete states used by the counterexample and witness theorems -/

/-- A placeholder solver value (used only as the default of projections). -/
def defaultSolver : CDCLSolver :=
  { clauses := [], num_vars := 0, assign_val := fun _ => 0
    assign_level := fun _ => 0, reason := fun _ => none, level := 0
    watch_lit_to_clauses := [], watchers := fun _ => (0, 0)
    assign_stack := [], prop_queue := [], var_activity := fun _ => 0
    decay := 19 / 20, conflict_count := 0, decay_interval := 50 }

/-- Projection out of a successful construction. -/
def getSolver (e : Except PyError CDCLSolver) : CDCLSolver :=
  match e with
  | .ok s => s
  | .error _ => defaultSolver

/-- Projection of the raised error, if any. -/
def errorOf {α : Type} (e : Except PyError α) : Option PyError :=
  match e with
  | .ok _ => none
  | .error x => some x

/-- Projection of the solver state carried by a `solve` result. -/
def solvedState (e : Except PyError (Bool × CDCLSolver)) : CDCLSolver :=
  match e with
  | .ok p => p.2
  | .error _ => defaultSolver

/-- Projection of the solver state carried by a `propagate` result. -/
def propState (o : Option (CDCLSolver × Option Nat)) : CDCLSolver :=
  match o with
  | some p => p.1
  | none => defaultSolver

/-- The solver built on `[[1], [2]]`: the unit pass satisfies the formula
outright and `solve` returns SAT. -/
def exampleSatInput : CDCLSolver :=
  getSolver (CDCLSolver.init [[1], [2]] 2)

/-- The solver built on `[[1], [-1]]`: contradictory unit clauses make the
unit pass return False. -/
def exampleUnsatInput : CDCLSolver :=
  getSolver (CDCLSolver.init [[1], [-1]] 1)

/-- The solver built on `[[1], [2], [-1, -2]]` with three variables: the
initial level-0 propagation hits a conflict while variable 3 is still
unassigned. -/
def exampleConflictInput : CDCLSolver :=
  getSolver (CDCLSolver.init [[1], [2], [-1, -2]] 3)

/-- The solver built on `[[1, 2]]`: after level-0 propagation both
variables are unassigned, so the driver reaches `self.pick_branch_var()`. -/
def exampleBranchInput : CDCLSolver :=
  getSolver (CDCLSolver.init [[1, 2]] 2)

/-- Solver for the duplicated clause database `[[-1], [-2], [1, 2], [1, 2]]`:
propagation of the units falsifies clauses 2 and 3 simultaneously but
returns only clause 2 as the conflict. -/
def exampleWatch0 : CDCLSolver :=
  getSolver (CDCLSolver.init [[-1], [-2], [1, 2], [1, 2]] 2)

/-- `exampleWatch0` after the unit pass of `solve`. -/
def exampleWatch1 : CDCLSolver :=
  (unitLoop exampleWatch0 exampleWatch0.clauses).1

/-- `exampleWatch1` after the initial propagation (which reports the
conflict on clause 2). -/
def exampleWatch2 : CDCLSolver :=
  match CDCLSolver.propagate (solveFuel exampleWatch1) exampleWatch1 with
  | some (s, _) => s
  | none => defaultSolver

/-- The solver state reached on the formula `[[-1, -2], [-1, 2]]` by
deciding variable 1 true at level 1 and propagating: propagation asserts
`-2` with antecedent clause 0 and then reports clause 1 as the conflict
(this is the state `resolve_conflict` is invoked on; the driver itself
cannot reach it because `pick_branch_var` is missing). -/
def exampleConflictState : CDCLSolver :=
  { clauses := [[-1, -2], [-1, 2]], num_vars := 2
    assign_val := fun v => if v = 1 then 1 else if v = 2 then -1 else 0
    assign_level := fun v => if v = 1 then 1 else if v = 2 then 1 else 0
    reason := fun v => if v = 2 then some 0 else none
    level := 1
    watch_lit_to_clauses := [(-1, [0, 1]), (-2, [0]), (2, [1])]
    watchers := fun j => if j = 0 then (-1, -2) else if j = 1 then (-1, 2) else (0, 0)
    assign_stack := [(1, 1, 1), (2, -2, 1)], prop_queue := [-2]
    var_activity := fun _ => 0, decay := 19 / 20
    conflict_count := 0, decay_interval := 50 }

/-- A conflict state at decision level 2 on the single clause `[-1, 2]`
(variable 2 decided false at level 1, variable 1 decided true at level 2):
the conflict clause is already asserting, with exactly one literal at the
conflict level. -/
def exampleAssertState : CDCLSolver :=
  { clauses := [[-1, 2]], num_vars := 2
    assign_val := fun v => if v = 1 then 1 else if v = 2 then -1 else 0
    assign_level := fun v => if v = 1 then 2 else if v = 2 then 1 else 0
    reason := fun _ => none
    level := 2
    watch_lit_to_clauses := [(-1, [0]), (2, [0])]
    watchers := fun j => if j = 0 then (-1, 2) else (0, 0)
    assign_stack := [(2, -2, 1), (1, 1, 2)], prop_queue := []
    var_activity := fun _ => 0, decay := 19 / 20
    conflict_count := 0, decay_interval := 50 }

/-- The result of conflict analysis on `exampleAssertState`. -/
def exampleAssertResult : CDCLSolver :=
  match CDCLSolver.resolve_conflict 10 exampleAssertState 0 with
  | some (_, s) => s
  | none => defaultSolver

/-- A conflict state at level 1 on the single clause `[1, 1]`, whose
repeated literal makes conflict analysis bump variable 1 twice. -/
def exampleDupState : CDCLSolver :=
  { clauses := [[1, 1]], num_vars := 1
    assign_val := fun v => if v = 1 then -1 else 0
    assign_level := fun v => if v = 1 then 1 else 0
    reason := fun _ => none
    level := 1
    watch_lit_to_clauses := [(1, [0])]
    watchers := fun j => if j = 0 then (1, 1) else (0, 0)
    assign_stack := [(1, -1, 1)], prop_queue := []
    var_activity := fun _ => 0, decay := 19 / 20
    conflict_count := 0, decay_interval := 50 }

/-- The result of conflict analysis on `exampleDupState`. -/
def exampleDupResult : CDCLSolver :=
  match CDCLSolver.resolve_conflict 10 exampleDupState 0 with
  | some (_, s) => s
  | none => defaultSolver

/-! ## Basic lemmas about the watch map -/

theorem lookup_none_of_no_key (m : WatchMap) (x : Int)
    (h : ∀ p ∈ m, p.1 ≠ x) : m.lookup x = none := by
  induction m with
  | nil => rfl
  | cons p t ih =>
    have hp : (x == p.1) = false := by
      have := h p (by simp)
      simp [beq_eq_false_iff_ne]
      omega
    rw [show (p :: t : WatchMap) = ((p.1, p.2) :: t : WatchMap) by rfl,
      List.lookup_cons, hp]
    exact ih fun q hq => h q (by simp [hq])

theorem lookup_mem (m : WatchMap) (x : Int) (v : List Nat)
    (h : m.lookup x = some v) : (x, v) ∈ m := by
  induction m with
  | nil => simp at h
  | cons p t ih =>
    rw [show (p :: t : WatchMap) = ((p.1, p.2) :: t : WatchMap) by rfl,
      List.lookup_cons] at h
    by_cases hx : x = p.1
    · rw [show (x == p.1) = true by simp [hx]] at h
      simp only at h
      cases h
      subst hx
      exact List.mem_cons_self _ _
    · rw [show (x == p.1) = false by simp [beq_eq_false_iff_ne]; omega] at h
      simp only at h
      exact List.mem_cons_of_mem _ (ih h)

theorem lookup_map_replace_ne (m : WatchMap) (l : Int) (v : List Nat)
    (x : Int) (hx : x ≠ l) :
    (m.map (fun p => if p.1 = l then (l, v) else p)).lookup x = m.lookup x := by
  induction m with
  | nil => rfl
  | cons p t ih =>
    by_cases hp : p.1 = l
    · simp only [List.map, if_pos hp]
      rw [List.lookup_cons,
        show (p :: t : WatchMap) = ((p.1, p.2) :: t : WatchMap) by rfl,
        List.lookup_cons,
        show (x == l) = false by simp [beq_eq_false_iff_ne]; omega,
        show (x == p.1) = false by simp [beq_eq_false_iff_ne]; omega]
      exact ih
    · simp only [List.map, if_neg hp]
      rw [show ((p : Int × List Nat) :: t.map (fun p => if p.1 = l then (l, v) else p) :
            WatchMap)
          = ((p.1, p.2) :: t.map (fun p => if p.1 = l then (l, v) else p) : WatchMap)
          by rfl,
        List.lookup_cons,
        show (p :: t : WatchMap) = ((p.1, p.2) :: t : WatchMap) by rfl,
        List.lookup_cons]
      cases hxp : x == p.1
      · simp only
        exact ih
      · simp only

theorem lookup_map_replace_eq (m : WatchMap) (l : Int) (v : List Nat)
    (h : ∃ p ∈ m, p.1 = l) :
    (m.map (fun p => if p.1 = l then (l, v) else p)).lookup l = some v := by
  induction m with
  | nil => simp at h
  | cons p t ih =>
    by_cases hp : p.1 = l
    · simp only [List.map, if_pos hp]
      rw [List.lookup_cons, show (l == l) = true by simp]
    · simp only [List.map, if_neg hp]
      rw [show ((p : Int × List Nat) :: t.map (fun p => if p.1 = l then (l, v) else p) :
            WatchMap)
          = ((p.1, p.2) :: t.map (fun p => if p.1 = l then (l, v) else p) : WatchMap)
          by rfl,
        List.lookup_cons,
        show (l == p.1) = false by simp [beq_eq_false_iff_ne]; omega]
      refine ih ?_
      rcases h with ⟨q, hq, hql⟩
      rcases List.mem_cons.mp hq with h1 | h2
      · exact absurd (h1 ▸ hql) hp
      · exact ⟨q, h2, hql⟩

theorem lookup_append_no_key (m : WatchMap) (l : Int) (v : List Nat)
    (h : ∀ p ∈ m, p.1 ≠ l) : (m ++ [(l, v)]).lookup l = some v := by
  induction m with
  | nil => simp [List.lookup_cons]
  | cons p t ih =>
    have hp := h p (by simp)
    rw [List.cons_append,
      show ((p : Int × List Nat) :: (t ++ [(l, v)]) : WatchMap)
          = ((p.1, p.2) :: (t ++ [(l, v)]) : WatchMap) by rfl,
      List.lookup_cons,
      show (l == p.1) = false by simp [beq_eq_false_iff_ne]; omega]
    exact ih fun q hq => h q (by simp [hq])

theorem lookup_append_ne (m : WatchMap) (l : Int) (v : List Nat)
    (x : Int) (hx : x ≠ l) : (m ++ [(l, v)]).lookup x = m.lookup x := by
  induction m with
  | nil =>
    simp only [List.nil_append, List.lookup_nil, List.lookup_cons]
    rw [show (x == l) = false by simp [beq_eq_false_iff_ne]; omega]
  | cons p t ih =>
    rw [List.cons_append,
      show ((p : Int × List Nat) :: (t ++ [(l, v)]) : WatchMap)
          = ((p.1, p.2) :: (t ++ [(l, v)]) : WatchMap) by rfl,
      List.lookup_cons,
      show (p :: t : WatchMap) = ((p.1, p.2) :: t : WatchMap) by rfl,
      List.lookup_cons]
    cases hxp : x == p.1
    · simp only
      exact ih
    · simp only

/-- The characteristic equation of the watch-map update. -/
theorem wlGet_wlSet (m : WatchMap) (l : Int) (v : List Nat) (x : Int) :
    wlGet (wlSet m l v) x = if x = l then v else wlGet m x := by
  unfold wlSet wlGet
  by_cases hany : m.any (fun p => decide (p.1 = l))
  · rw [if_pos hany]
    have hex : ∃ p ∈ m, p.1 = l := by simpa using hany
    by_cases hx : x = l
    · subst hx
      rw [lookup_map_replace_eq m x v hex]
      simp
    · rw [lookup_map_replace_ne m l v x hx, if_neg hx]
  · rw [if_neg hany]
    have hno : ∀ p ∈ m, p.1 ≠ l := by
      intro p hp hc
      apply hany
      rw [List.any_eq_true]
      exact ⟨p, hp, by simp [hc]⟩
    by_cases hx : x = l
    · subst hx
      rw [lookup_append_no_key m x v hno, if_pos rfl]
      simp
    · rw [lookup_append_ne m l v x hx, if_neg hx]

theorem wlGet_forall {P : Nat → Prop} (m : WatchMap)
    (h : ∀ p ∈ m, ∀ ci ∈ p.2, P ci) (t : Int) :
    ∀ ci ∈ wlGet m t, P ci := by
  intro ci hci
  unfold wlGet at hci
  cases hlk : m.lookup t with
  | none => rw [hlk] at hci; simp at hci
  | some v =>
    rw [hlk] at hci
    simp only [Option.getD_some] at hci
    exact h (t, v) (lookup_mem m t v hlk) ci hci

/-- Both components of `watchPair c` are literals of a nonempty `c`. -/
theorem watchPair_mem (c : Clause) (hc : c ≠ []) :
    (watchPair c).1 ∈ c ∧ (watchPair c).2 ∈ c := by
  match c with
  | [l] => simp [watchPair]
  | l :: l2 :: t => simp [watchPair]

/-! ## Basic lemmas about literal evaluation and `assign_var` -/

theorem litFalse_val_ne_zero {s : CDCLSolver} {l : Int}
    (h : litFalse s l = true) : s.assign_val l.natAbs ≠ 0 := by
  simp [litFalse, litNonFalse] at h
  exact h.1

theorem litSat_litNonFalse {s : CDCLSolver} {l : Int}
    (h : litSat s l = true) : litNonFalse s l = true := by
  simp only [litSat, decide_eq_true_eq] at h
  simp only [litNonFalse, decide_eq_true_eq]
  exact Or.inr h.2

theorem litSat_not_litFalse {s : CDCLSolver} {l : Int}
    (h : litSat s l = true) : litFalse s l = false := by
  unfold litFalse
  rw [litSat_litNonFalse h]
  rfl

theorem litSat_neg_litFalse {s : CDCLSolver} {l : Int}
    (h : litSat s l = true) : litFalse s (-l) = true := by
  simp only [litSat, decide_eq_true_eq] at h
  simp only [litFalse, litNonFalse, Bool.not_eq_true', decide_eq_false_iff_not,
    Int.natAbs_neg]
  intro hc
  rcases h.2 with ⟨h2, h3⟩ | ⟨h2, h3⟩ <;>
    rcases hc with hc | ⟨hc1, hc2⟩ | ⟨hc1, hc2⟩ <;> omega

theorem assign_var_clauses (s : CDCLSolver) (lit : Int) (lvl : Nat)
    (r : Option Nat) : (s.assign_var lit lvl r).clauses = s.clauses := rfl

theorem assign_var_num_vars (s : CDCLSolver) (lit : Int) (lvl : Nat)
    (r : Option Nat) : (s.assign_var lit lvl r).num_vars = s.num_vars := rfl

theorem assign_var_level (s : CDCLSolver) (lit : Int) (lvl : Nat)
    (r : Option Nat) : (s.assign_var lit lvl r).level = s.level := rfl

theorem assign_var_watchers (s : CDCLSolver) (lit : Int) (lvl : Nat)
    (r : Option Nat) : (s.assign_var lit lvl r).watchers = s.watchers := rfl

theorem assign_var_watch_map (s : CDCLSolver) (lit : Int) (lvl : Nat)
    (r : Option Nat) :
    (s.assign_var lit lvl r).watch_lit_to_clauses = s.watch_lit_to_clauses := rfl

theorem assign_var_queue (s : CDCLSolver) (lit : Int) (lvl : Nat)
    (r : Option Nat) :
    (s.assign_var lit lvl r).prop_queue = s.prop_queue ++ [lit] := rfl

theorem assign_var_stack (s : CDCLSolver) (lit : Int) (lvl : Nat)
    (r : Option Nat) :
    (s.assign_var lit lvl r).assign_stack = s.assign_stack ++ [(lit.natAbs, lit, lvl)] := rfl

theorem assign_var_val (s : CDCLSolver) (lit : Int) (lvl : Nat)
    (r : Option Nat) (v : Nat) :
    (s.assign_var lit lvl r).assign_val v =
      if v = lit.natAbs then (if 0 < lit then 1 else -1) else s.assign_val v := rfl

theorem litSat_assign_var {s : CDCLSolver} {lit : Int}
    (h0 : s.assign_val lit.natAbs = 0) (lvl : Nat) (r : Option Nat)
    {l : Int} (hs : litSat s l = true) :
    litSat (s.assign_var lit lvl r) l = true := by
  simp [litSat] at hs ⊢
  rw [assign_var_val]
  by_cases hv : l.natAbs = lit.natAbs
  · rw [hv] at hs; exact absurd h0 hs.1
  · rw [if_neg hv]; exact hs

theorem litFalse_assign_var {s : CDCLSolver} {lit : Int}
    (h0 : s.assign_val lit.natAbs = 0) (lvl : Nat) (r : Option Nat)
    {l : Int} (hf : litFalse s l = true) :
    litFalse (s.assign_var lit lvl r) l = true := by
  simp [litFalse, litNonFalse] at hf ⊢
  rw [assign_var_val]
  by_cases hv : l.natAbs = lit.natAbs
  · rw [hv] at hf; exact absurd h0 hf.1
  · rw [if_neg hv]; exact hf

theorem litSat_assign_self (s : CDCLSolver) {lit : Int} (hne : lit ≠ 0)
    (lvl : Nat) (r : Option Nat) :
    litSat (s.assign_var lit lvl r) lit = true := by
  simp [litSat]
  rw [assign_var_val, if_pos rfl]
  by_cases hp : 0 < lit
  · rw [if_pos hp]; exact ⟨by omega, Or.inl ⟨hp, rfl⟩⟩
  · rw [if_neg hp]; exact ⟨by omega, Or.inr ⟨by omega, rfl⟩⟩

/-- `assign_var` on a previously unassigned variable preserves the
per-clause watch invariant. -/
theorem clauseWatchOK_assign_var {s : CDCLSolver} {lit : Int}
    (h0 : s.assign_val lit.natAbs = 0) (hne : lit ≠ 0) (lvl : Nat)
    (r : Option Nat) {ci : Nat} (h : ClauseWatchOK s ci) :
    ClauseWatchOK (s.assign_var lit lvl r) ci := by
  unfold ClauseWatchOK at h ⊢
  rw [assign_var_watchers]
  have hpend : ∀ w, WatchPending s ci w →
      litSat (s.assign_var lit lvl r) w = true ∨
      WatchPending (s.assign_var lit lvl r) ci w := by
    intro w hw
    obtain ⟨hreg, hcase⟩ := hw
    by_cases hv : w.natAbs = lit.natAbs
    · have hwl : w = lit ∨ w = -lit := by
        rcases Int.natAbs_eq_natAbs_iff.mp hv with h1 | h1
        · exact Or.inl h1
        · exact Or.inr h1
      rcases hwl with h1 | h1
      · subst h1
        exact Or.inl (litSat_assign_self s hne lvl r)
      · subst h1
        right
        refine ⟨by rw [assign_var_watch_map]; exact hreg, Or.inr ?_⟩
        rw [assign_var_queue]
        simp
    · right
      refine ⟨by rw [assign_var_watch_map]; exact hreg, ?_⟩
      rcases hcase with h1 | h1
      · left
        rw [assign_var_val, if_neg hv]
        exact h1
      · right
        rw [assign_var_queue]
        exact List.mem_append_left _ h1
  rcases h with h | h | h | h
  · exact Or.inl (litSat_assign_var h0 lvl r h)
  · exact Or.inr (Or.inl (litSat_assign_var h0 lvl r h))
  · rcases hpend _ h with h1 | h1
    · exact Or.inl h1
    · exact Or.inr (Or.inr (Or.inl h1))
  · rcases hpend _ h with h1 | h1
    · exact Or.inr (Or.inl h1)
    · exact Or.inr (Or.inr (Or.inr h1))

/-! ## Invariants established by construction -/

theorem initWatchLoop_spec : ∀ (cs : List Clause) (i : Nat) (m : WatchMap)
    (w : Nat → Int × Int) (m' : WatchMap) (w' : Nat → Int × Int),
    initWatchLoop cs i m w = .ok (m', w') →
    (∀ ci l, ci ∈ wlGet m' l → ci ∈ wlGet m l ∨ (i ≤ ci ∧ ci < i + cs.length)) ∧
    (∀ ci l, ci < i → ci ∈ wlGet m l → ci ∈ wlGet m' l) ∧
    (∀ ci, ci < i → w' ci = w ci) ∧
    (∀ k, k < cs.length → w' (i + k) = watchPair (cs.getD k []) ∧
        (i + k) ∈ wlGet m' ((watchPair (cs.getD k [])).1)) ∧
    (∀ c ∈ cs, c ≠ []) := by
  intro cs
  induction cs with
  | nil =>
    intro i m w m' w' h
    simp only [initWatchLoop] at h
    cases h
    refine ⟨fun ci l hci => Or.inl hci, fun ci l _ hci => hci,
      fun ci _ => rfl, fun k hk => by simp at hk, fun c hc => by simp at hc⟩
  | cons c rest ih =>
    intro i m w m' w' h
    match hc : c with
    | [] => simp [initWatchLoop] at h
    | hd :: tl =>
      simp only [initWatchLoop] at h
      set w1 := (watchPair (hd :: tl)).1 with hw1
      set w2 := (watchPair (hd :: tl)).2 with hw2
      set wNew : Nat → Int × Int := fun j => if j = i then (w1, w2) else w j with hwNew
      set m1 := wlSet m w1 (wlGet m w1 ++ [i]) with hm1
      set m2 := if w2 = w1 then m1 else wlSet m1 w2 (wlGet m1 w2 ++ [i]) with hm2
      obtain ⟨ih1, ih2, ih3, ih4, ih5⟩ := ih (i + 1) m2 wNew m' w' h
      have fact1 : ∀ ci l, ci ∈ wlGet m2 l → ci ∈ wlGet m l ∨ ci = i := by
        intro ci l hci
        rw [hm2] at hci
        by_cases h21 : w2 = w1
        · rw [if_pos h21, hm1, wlGet_wlSet] at hci
          by_cases hl : l = w1
          · rw [if_pos hl] at hci
            rcases List.mem_append.mp hci with h1 | h1
            · exact Or.inl (hl ▸ h1)
            · simp at h1; exact Or.inr h1
          · rw [if_neg hl] at hci; exact Or.inl hci
        · rw [if_neg h21, wlGet_wlSet] at hci
          by_cases hl : l = w2
          · rw [if_pos hl] at hci
            rcases List.mem_append.mp hci with h1 | h1
            · rw [hm1, wlGet_wlSet] at h1
              by_cases hl1 : w2 = w1
              · exact absurd hl1 h21
              · rw [if_neg hl1] at h1; exact Or.inl (hl ▸ h1)
            · simp at h1; exact Or.inr h1
          · rw [if_neg hl, hm1, wlGet_wlSet] at hci
            by_cases hl1 : l = w1
            · rw [if_pos hl1] at hci
              rcases List.mem_append.mp hci with h1 | h1
              · exact Or.inl (hl1 ▸ h1)
              · simp at h1; exact Or.inr h1
            · rw [if_neg hl1] at hci; exact Or.inl hci
      have fact2 : ∀ ci l, ci ∈ wlGet m l → ci ∈ wlGet m2 l := by
        intro ci l hci
        have hstep : ∀ (mm : WatchMap) (key : Int),
            ci ∈ wlGet mm l → ci ∈ wlGet (wlSet mm key (wlGet mm key ++ [i])) l := by
          intro mm key hmem
          rw [wlGet_wlSet]
          by_cases hl : l = key
          · rw [if_pos hl]; exact List.mem_append_left _ (hl ▸ hmem)
          · rw [if_neg hl]; exact hmem
        rw [hm2]
        by_cases h21 : w2 = w1
        · rw [if_pos h21]; exact hstep m w1 hci
        · rw [if_neg h21]; exact hstep m1 w2 (hstep m w1 hci)
      have fact3 : i ∈ wlGet m2 w1 := by
        have hbase : i ∈ wlGet m1 w1 := by
          rw [hm1, wlGet_wlSet, if_pos rfl]
          exact List.mem_append_right _ (by simp)
        rw [hm2]
        by_cases h21 : w2 = w1
        · rw [if_pos h21]; exact hbase
        · rw [if_neg h21, wlGet_wlSet]
          by_cases hl : w1 = w2
          · exact absurd hl.symm h21
          · rw [if_neg hl]; exact hbase
      refine ⟨?_, ?_, ?_, ?_, ?_⟩
      · intro ci l hci
        rcases ih1 ci l hci with h1 | h1
        · rcases fact1 ci l h1 with h2 | h2
          · exact Or.inl h2
          · subst h2
            refine Or.inr ⟨by omega, ?_⟩
            simp only [List.length_cons]
            omega
        · refine Or.inr ⟨by omega, ?_⟩
          simp only [List.length_cons] at h1 ⊢
          omega
      · intro ci l hlt hci
        exact ih2 ci l (by omega) (fact2 ci l hci)
      · intro ci hlt
        rw [ih3 ci (by omega), hwNew]
        simp only
        rw [if_neg (by omega)]
      · intro k hk
        match k with
        | 0 =>
          constructor
          · rw [show i + 0 = i by omega, ih3 i (by omega), hwNew]
            simp
          · rw [show i + 0 = i by omega]
            simp only [List.getD_cons_zero]
            exact ih2 i w1 (by omega) fact3
        | Nat.succ k' =>
          have hk' : k' < rest.length := by simp at hk; omega
          obtain ⟨g1, g2⟩ := ih4 k' hk'
          constructor
          · rw [show i + (k' + 1) = i + 1 + k' by omega, g1]
            simp [List.getD]
          · rw [show i + (k' + 1) = i + 1 + k' by omega]
            simp only [List.getD_cons_succ]
            exact g2
      · intro cc hcc
        rcases List.mem_cons.mp hcc with h1 | h1
        · rw [h1]; simp
        · exact ih5 cc h1

theorem wlSet_mem_cases (m : WatchMap) (key : Int) (v : List Nat)
    (p : Int × List Nat) (hp : p ∈ wlSet m key v) :
    p ∈ m ∨ p = (key, v) := by
  unfold wlSet at hp
  by_cases hany : m.any (fun p => decide (p.1 = key))
  · rw [if_pos hany] at hp
    rcases List.mem_map.mp hp with ⟨q, hq, hqe⟩
    by_cases hqk : q.1 = key
    · rw [if_pos hqk] at hqe; exact Or.inr hqe.symm
    · rw [if_neg hqk] at hqe; exact Or.inl (hqe ▸ hq)
  · rw [if_neg hany] at hp
    rcases List.mem_append.mp hp with h1 | h1
    · exact Or.inl h1
    · simp at h1; exact Or.inr h1

/-- Members of `wlGet` come from some stored pair. -/
theorem wlGet_subset_pairs (m : WatchMap) (l : Int) (ci : Nat)
    (h : ci ∈ wlGet m l) : ∃ p ∈ m, ci ∈ p.2 := by
  unfold wlGet at h
  cases hlk : m.lookup l with
  | none => rw [hlk] at h; simp at h
  | some v =>
    rw [hlk] at h
    simp only [Option.getD_some] at h
    exact ⟨(l, v), lookup_mem m l v hlk, h⟩

theorem initWatchLoop_bound : ∀ (cs : List Clause) (i : Nat) (m : WatchMap)
    (w : Nat → Int × Int) (m' : WatchMap) (w' : Nat → Int × Int),
    initWatchLoop cs i m w = .ok (m', w') →
    (∀ p ∈ m, ∀ ci ∈ p.2, ci < i) →
    ∀ p ∈ m', ∀ ci ∈ p.2, ci < i + cs.length := by
  intro cs
  induction cs with
  | nil =>
    intro i m w m' w' h hm
    simp only [initWatchLoop] at h
    cases h
    intro p hp ci hci
    have := hm p hp ci hci
    omega
  | cons c rest ih =>
    intro i m w m' w' h hm
    match hc : c with
    | [] => simp [initWatchLoop] at h
    | hd :: tl =>
      simp only [initWatchLoop] at h
      set w1 := (watchPair (hd :: tl)).1 with hw1
      set w2 := (watchPair (hd :: tl)).2 with hw2
      set m1 := wlSet m w1 (wlGet m w1 ++ [i]) with hm1
      set m2 := if w2 = w1 then m1 else wlSet m1 w2 (wlGet m1 w2 ++ [i]) with hm2
      have hold : ∀ (mm : WatchMap), (∀ p ∈ mm, ∀ ci ∈ p.2, ci < i + 1) →
          ∀ (key : Int) (p : Int × List Nat),
            p ∈ wlSet mm key (wlGet mm key ++ [i]) → ∀ ci ∈ p.2, ci < i + 1 := by
        intro mm hmm key p hp ci hci
        rcases wlSet_mem_cases mm key _ p hp with h1 | h1
        · exact hmm p h1 ci hci
        · subst h1
          simp only at hci
          rcases List.mem_append.mp hci with h2 | h2
          · rcases wlGet_subset_pairs mm key ci h2 with ⟨q, hq, hq2⟩
            exact hmm q hq ci hq2
          · simp at h2; omega
      have hmw : ∀ p ∈ m, ∀ ci ∈ p.2, ci < i + 1 := by
        intro p hp ci hci
        have := hm p hp ci hci; omega
      have hm1p : ∀ p ∈ m1, ∀ ci ∈ p.2, ci < i + 1 := by
        rw [hm1]; exact hold m hmw w1
      have hm2p : ∀ p ∈ m2, ∀ ci ∈ p.2, ci < i + 1 := by
        rw [hm2]
        by_cases h21 : w2 = w1
        · rw [if_pos h21]; exact hm1p
        · rw [if_neg h21]; exact hold m1 hm1p w2
      have := ih (i + 1) m2 _ m' w' h hm2p
      intro p hp ci hci
      have := this p hp ci hci
      simp only [List.length_cons]
      omega

/-- All facts and invariants holding right after `CDCLSolver.__init__`. -/
theorem init_spec (cl : List Clause) (n : Nat) (s0 : CDCLSolver)
    (h : CDCLSolver.init cl n = .ok s0) :
    s0.clauses = cl ∧ s0.num_vars = n ∧ s0.level = 0 ∧
    s0.prop_queue = [] ∧ s0.assign_stack = [] ∧
    (∀ v, s0.assign_val v = 0) ∧
    s0.decay = 19 / 20 ∧ s0.decay_interval = 50 ∧
    QueueInv s0 ∧ WatchIdxInv s0 ∧ WatchersInClause s0 ∧ WatchInv s0 ∧
    ValsBounded s0 ∧ EntailInv s0 ∧ (∀ c ∈ cl, c ≠ []) := by
  unfold CDCLSolver.init at h
  cases hloop : initWatchLoop cl 0 [] (fun _ => (0, 0)) with
  | error e => rw [hloop] at h; cases h
  | ok mw =>
    rw [hloop] at h
    obtain ⟨mm, ww⟩ := mw
    cases h
    obtain ⟨_l1, _l2, _l3, l4, l5⟩ :=
      initWatchLoop_spec cl 0 [] (fun _ => (0, 0)) mm ww hloop
    have hgetD : ∀ ci, ci < cl.length → cl.getD ci [] ≠ [] := by
      intro ci hci
      refine l5 _ ?_
      rw [List.getD_eq_getElem _ _ hci]
      exact List.getElem_mem hci
    refine ⟨rfl, rfl, rfl, rfl, rfl, fun v => rfl, rfl, rfl, ?_, ?_, ?_, ?_, ?_, ?_, l5⟩
    · intro l hl; simp at hl
    · intro p hp ci hci
      have := initWatchLoop_bound cl 0 [] (fun _ => (0, 0)) mm ww hloop
        (by intro q hq; simp at hq) p hp ci hci
      simpa using this
    · intro ci hci
      obtain ⟨g1, _g2⟩ := l4 ci hci
      rw [show (0 : Nat) + ci = ci by omega] at g1
      show (ww ci).1 ∈ cl.getD ci [] ∧ (ww ci).2 ∈ cl.getD ci []
      rw [g1]
      exact watchPair_mem _ (hgetD ci hci)
    · intro ci hci
      obtain ⟨g1, g2⟩ := l4 ci hci
      rw [show (0 : Nat) + ci = ci by omega] at g1 g2
      right; right; left
      show ci ∈ wlGet mm (ww ci).1 ∧ _
      rw [g1]
      exact ⟨g2, Or.inl rfl⟩
    · intro v _; exact Or.inl rfl
    · intro M _ v hv; exact absurd rfl hv

/-! ## Counting and entailment lemmas -/

theorem countP_update (L : List Nat) (hnd : L.Nodup) (v0 : Nat) (hv : v0 ∈ L)
    (f g : Nat → Bool) (hfg : ∀ x ∈ L, x ≠ v0 → f x = g x)
    (hf : f v0 = false) (hg : g v0 = true) :
    L.countP f + 1 = L.countP g := by
  induction L with
  | nil => simp at hv
  | cons a t ih =>
    rw [List.countP_cons, List.countP_cons]
    rcases List.nodup_cons.mp hnd with ⟨hat, hndt⟩
    by_cases hav : a = v0
    · subst hav
      rw [hf, hg]
      have hcnt : t.countP f = t.countP g := by
        apply List.countP_congr
        intro x hx
        have hxa : x ≠ a := fun he => hat (he ▸ hx)
        exact iff_of_eq (by rw [hfg x (List.mem_cons_of_mem _ hx) hxa])
      rw [hcnt]
      simp
    · have hvt : v0 ∈ t := by
        rcases List.mem_cons.mp hv with h1 | h1
        · exact absurd h1.symm hav
        · exact h1
      have hfa : f a = g a := hfg a (List.mem_cons_self _ _) hav
      rw [hfa]
      have := ih hndt hvt (fun x hx hxv => hfg x (List.mem_cons_of_mem _ hx) hxv)
      omega

theorem unassignedCount_assign_var (s : CDCLSolver) (lit : Int)
    (hne : lit ≠ 0) (hle : lit.natAbs ≤ s.num_vars)
    (h0 : s.assign_val lit.natAbs = 0) (lvl : Nat) (r : Option Nat) :
    unassignedCount (s.assign_var lit lvl r) + 1 = unassignedCount s := by
  unfold unassignedCount
  rw [assign_var_num_vars]
  have hnd : ((List.range s.num_vars).map (· + 1)).Nodup :=
    (List.nodup_range _).map (fun a b h => by omega)
  have hv : lit.natAbs ∈ (List.range s.num_vars).map (· + 1) := by
    rw [List.mem_map]
    exact ⟨lit.natAbs - 1, List.mem_range.mpr (by omega), by omega⟩
  apply countP_update _ hnd lit.natAbs hv
  · intro x _ hx
    rw [assign_var_val, if_neg hx]
  · rw [assign_var_val, if_pos rfl]
    by_cases hp : 0 < lit
    · rw [if_pos hp]; simp
    · rw [if_neg hp]; simp
  · simp [h0]

theorem litFalse_of_not_sat {s : CDCLSolver} {l : Int}
    (hval : s.assign_val l.natAbs ≠ 0) (hsat : litSat s l = false) :
    litFalse s l = true := by
  simp only [litSat, decide_eq_false_iff_not] at hsat
  simp only [litFalse, litNonFalse, Bool.not_eq_true', decide_eq_false_iff_not]
  intro hc
  rcases hc with hc | hc | hc
  · exact hval hc
  · exact hsat ⟨hval, Or.inl hc⟩
  · exact hsat ⟨hval, Or.inr hc⟩

theorem lit_ne_of_nonFalse_of_false {s : CDCLSolver} {a b : Int}
    (h1 : litNonFalse s a = true) (h2 : litFalse s b = true) : a ≠ b := by
  intro he
  subst he
  rw [litFalse, h1] at h2
  cases h2

/-- A literal false under the solver state is false under any model that
agrees with the state on assigned variables. -/
theorem litFalse_not_true_under {s : CDCLSolver} {M : Nat → Bool} {l : Int}
    (hagree : ∀ v, s.assign_val v ≠ 0 → M v = (s.assign_val v == 1))
    (hbound : s.assign_val l.natAbs = 0 ∨ s.assign_val l.natAbs = 1 ∨
      s.assign_val l.natAbs = -1)
    (hne : l ≠ 0) (hl : litFalse s l = true) : litTrueUnder M l = false := by
  simp only [litFalse, litNonFalse, Bool.not_eq_true', decide_eq_false_iff_not] at hl
  push_neg at hl
  obtain ⟨h0, h1, h2⟩ := hl
  have hMv := hagree l.natAbs h0
  unfold litTrueUnder
  by_cases hp : 0 < l
  · rw [if_pos hp]
    have : s.assign_val l.natAbs ≠ 1 := h1 hp
    rw [hMv]
    simp only [beq_eq_false_iff_ne, ne_eq]
    exact this
  · rw [if_neg hp]
    have hneg : l < 0 := by omega
    have hv1 : s.assign_val l.natAbs = 1 := by
      have := h2 hneg
      rcases hbound with hb | hb | hb
      · exact absurd hb h0
      · exact hb
      · exact absurd hb this
    rw [hMv, hv1]
    simp

/-- Assigning a literal forced by a clause whose other literals are all
false preserves the entailment invariant. -/
theorem entailInv_assign_of_clause {s : CDCLSolver} (hE : EntailInv s)
    (hVB : ValsBounded s) (hWF : WFState s) (c : Clause) (hc : c ∈ s.clauses)
    (lit : Int) (h0 : s.assign_val lit.natAbs = 0)
    (hall : ∀ l ∈ c, l = lit ∨ litFalse s l = true) (lvl : Nat) (r : Option Nat) :
    EntailInv (s.assign_var lit lvl r) := by
  intro M hM v hv
  rw [assign_var_clauses] at hM
  have hagree : ∀ u, s.assign_val u ≠ 0 → M u = (s.assign_val u == 1) :=
    fun u hu => hE M hM u hu
  by_cases hvl : v = lit.natAbs
  · subst hvl
    have hsatc : clauseSatUnder M c = true := hM c hc
    rcases List.any_eq_true.mp hsatc with ⟨l, hlc, hlt⟩
    have hlne : l ≠ 0 := (hWF c hc l hlc).1
    have hlbound : s.assign_val l.natAbs = 0 ∨ s.assign_val l.natAbs = 1 ∨
        s.assign_val l.natAbs = -1 := hVB l.natAbs (hWF c hc l hlc).2
    rcases hall l hlc with hl | hl
    · subst hl
      rw [assign_var_val, if_pos rfl]
      unfold litTrueUnder at hlt
      by_cases hp : 0 < l
      · rw [if_pos hp] at hlt
        rw [if_pos hp, hlt]
        simp
      · rw [if_neg hp] at hlt
        rw [if_neg hp]
        simp only [Bool.not_eq_true'] at hlt
        rw [hlt]
        simp
    · rw [litFalse_not_true_under hagree hlbound hlne hl] at hlt
      cases hlt
  · rw [assign_var_val, if_neg hvl] at hv ⊢
    exact hE M hM v hv

/-! ## The unit-clause pass -/

theorem unitLoop_spec : ∀ (cl : List Clause) (s s' : CDCLSolver) (b : Bool),
    unitLoop s cl = (s', b) →
    (∀ c ∈ cl, c ∈ s.clauses) →
    QueueInv s → WatchIdxInv s → WatchersInClause s → WatchInv s →
    ValsBounded s → WFState s →
    s'.clauses = s.clauses ∧ s'.num_vars = s.num_vars ∧ s'.level = s.level ∧
    s'.watchers = s.watchers ∧
    s'.watch_lit_to_clauses = s.watch_lit_to_clauses ∧
    QueueInv s' ∧ WatchIdxInv s' ∧ WatchersInClause s' ∧ WatchInv s' ∧
    ValsBounded s' ∧ (EntailInv s → EntailInv s') ∧
    (∀ e ∈ s'.assign_stack, e ∈ s.assign_stack ∨ e.2.2 = 0) ∧
    (b = false → EntailInv s → ¬ Satisfiable s.clauses) := by
  intro cl
  induction cl with
  | nil =>
    intro s s' b h hin hQ hIdx hWC hW hVB hWF
    simp only [unitLoop] at h
    cases h
    exact ⟨rfl, rfl, rfl, rfl, rfl, hQ, hIdx, hWC, hW, hVB, fun hE => hE,
      fun e he => Or.inl he, fun hb => by cases hb⟩
  | cons c rest ih =>
    intro s s' b h hin hQ hIdx hWC hW hVB hWF
    match hc : c with
    | [] =>
      subst hc
      simp only [unitLoop] at h
      exact ih s s' b h (fun d hd => hin d (List.mem_cons_of_mem _ hd))
        hQ hIdx hWC hW hVB hWF
    | [lit] =>
      subst hc
      have hcmem : [lit] ∈ s.clauses := hin _ (List.mem_cons_self _ _)
      have hrest : ∀ d ∈ rest, d ∈ s.clauses :=
        fun d hd => hin d (List.mem_cons_of_mem _ hd)
      have hlitne : lit ≠ 0 := (hWF _ hcmem lit (by simp)).1
      have hlitle : lit.natAbs ≤ s.num_vars := (hWF _ hcmem lit (by simp)).2
      simp only [unitLoop] at h
      by_cases hval : s.assign_val lit.natAbs ≠ 0
      · rw [if_pos hval] at h
        by_cases hvv : s.assign_val lit.natAbs ≠ (if 0 < lit then 1 else -1)
        · rw [if_pos hvv] at h
          cases h
          refine ⟨rfl, rfl, rfl, rfl, rfl, hQ, hIdx, hWC, hW, hVB, fun hE => hE,
            fun e he => Or.inl he, ?_⟩
          intro _ hE hsat
          rcases hsat with ⟨M, hM⟩
          have hMl : clauseSatUnder M [lit] = true := hM _ hcmem
          rcases List.any_eq_true.mp hMl with ⟨l, hlc, hlt⟩
          have hleq : l = lit := by simpa using hlc
          subst hleq
          have hMv := hE M hM l.natAbs hval
          have hlbound := hVB l.natAbs hlitle
          unfold litTrueUnder at hlt
          by_cases hp : 0 < l
          · rw [if_pos hp] at hlt
            rw [if_pos hp] at hvv
            rw [hlt] at hMv
            have : s.assign_val l.natAbs = 1 := by
              rcases hlbound with hb | hb | hb
              · exact absurd hb hval
              · exact hb
              · rw [hb] at hMv; simp at hMv
            exact hvv this
          · rw [if_neg hp] at hlt
            rw [if_neg hp] at hvv
            simp only [Bool.not_eq_true'] at hlt
            rw [hlt] at hMv
            have : s.assign_val l.natAbs = -1 := by
              rcases hlbound with hb | hb | hb
              · exact absurd hb hval
              · rw [hb] at hMv; simp at hMv
              · exact hb
            exact hvv this
        · rw [if_neg hvv] at h
          exact ih s s' b h hrest hQ hIdx hWC hW hVB hWF
      · rw [if_neg hval] at h
        push_neg at hval
        set s1 := s.assign_var lit 0 none with hs1
        have hclauses1 : s1.clauses = s.clauses := assign_var_clauses s lit 0 none
        have hin1 : ∀ d ∈ rest, d ∈ s1.clauses := by
          rw [hclauses1]; exact hrest
        have hQ1 : QueueInv s1 := by
          intro l hl
          rw [hs1, assign_var_queue] at hl
          rcases List.mem_append.mp hl with h1 | h1
          · exact litSat_assign_var hval 0 none (hQ l h1)
          · simp at h1; subst h1; exact litSat_assign_self s hlitne 0 none
        have hIdx1 : WatchIdxInv s1 := by
          intro p hp ci hci
          rw [hclauses1]
          exact hIdx p hp ci hci
        have hWC1 : WatchersInClause s1 := by
          intro ci hci
          rw [hclauses1] at hci
          show (s1.watchers ci).1 ∈ s1.clauses.getD ci [] ∧
            (s1.watchers ci).2 ∈ s1.clauses.getD ci []
          rw [hs1, assign_var_watchers, assign_var_clauses]
          exact hWC ci hci
        have hW1 : WatchInv s1 := by
          intro ci hci
          rw [hclauses1] at hci
          exact clauseWatchOK_assign_var hval hlitne 0 none (hW ci hci)
        have hVB1 : ValsBounded s1 := by
          intro v hv
          rw [hs1, assign_var_num_vars] at hv
          rw [hs1, assign_var_val]
          by_cases hvl : v = lit.natAbs
          · rw [if_pos hvl]
            by_cases hp : 0 < lit
            · rw [if_pos hp]; right; left; rfl
            · rw [if_neg hp]; right; right; rfl
          · rw [if_neg hvl]; exact hVB v hv
        have hWF1 : WFState s1 := by
          show WFFormula s1.clauses s1.num_vars
          rw [hclauses1, hs1, assign_var_num_vars]
          exact hWF
        obtain ⟨g1, g2, g3, g4, g5, g6, g7, g8, g9, g10, g11, g12, g13⟩ :=
          ih s1 s' b h hin1 hQ1 hIdx1 hWC1 hW1 hVB1 hWF1
        refine ⟨by rw [g1, hclauses1], by rw [g2, hs1, assign_var_num_vars],
          by rw [g3, hs1, assign_var_level],
          by rw [g4, hs1, assign_var_watchers],
          by rw [g5, hs1, assign_var_watch_map],
          g6, g7, g8, g9, g10, ?_, ?_, ?_⟩
        · intro hE
          refine g11 ?_
          exact entailInv_assign_of_clause hE hVB hWF [lit] hcmem lit hval
            (fun l hl => Or.inl (by simpa using hl)) 0 none
        · intro e he
          rcases g12 e he with h1 | h1
          · rw [hs1, assign_var_stack] at h1
            rcases List.mem_append.mp h1 with h2 | h2
            · exact Or.inl h2
            · simp at h2; right; rw [h2]
          · exact Or.inr h1
        · intro hb hE
          have hE1 : EntailInv s1 :=
            entailInv_assign_of_clause hE hVB hWF [lit] hcmem lit hval
              (fun l hl => Or.inl (by simpa using hl)) 0 none
          have := g13 hb hE1
          rw [hclauses1] at this
          exact this
    | l1 :: l2 :: t =>
      subst hc
      simp only [unitLoop] at h
      exact ih s s' b h (fun d hd => hin d (List.mem_cons_of_mem _ hd))
        hQ hIdx hWC hW hVB hWF


/-! ## The propagation engine -/

/-- The clause at a valid index is a member of the database. -/
theorem getD_mem_clauses (s : CDCLSolver) (ci : Nat)
    (hci : ci < s.clauses.length) : s.clauses.getD ci [] ∈ s.clauses := by
  rw [List.getD_eq_getElem _ _ hci]
  exact List.getElem_mem hci

/-- Full specification of one step of the watcher loop of `propagate`. -/
theorem processWatchedClause_spec (s : CDCLSolver) (target : Int) (ci : Nat)
    (hQ : QueueInv s) (hIdx : WatchIdxInv s) (hWC : WatchersInClause s)
    (hVB : ValsBounded s) (hWF : WFState s)
    (hci : ci < s.clauses.length) (htf : litFalse s target = true)
    (s' : CDCLSolver) (r : Option Nat)
    (h : processWatchedClause s target ci = (s', r)) :
    s'.clauses = s.clauses ∧ s'.num_vars = s.num_vars ∧ s'.level = s.level ∧
    (∀ l, litFalse s l = true → litFalse s' l = true) ∧
    (∀ l, litSat s l = true → litSat s' l = true) ∧
    (∀ cj, cj ≠ ci → s'.watchers cj = s.watchers cj) ∧
    QueueInv s' ∧ WatchIdxInv s' ∧ WatchersInClause s' ∧ ValsBounded s' ∧
    (EntailInv s → EntailInv s') ∧
    (∀ cj, cj ≠ ci → ClauseWatchOK s cj → ClauseWatchOK s' cj) ∧
    (r = none → ClauseWatchOK s ci → ClauseWatchOK s' ci) ∧
    (r = none → ((s.watchers ci).1 = target ∨ (s.watchers ci).2 = target) →
      ClauseWatchOK s' ci) ∧
    (∀ cj, r = some cj → cj = ci ∧ s' = s ∧
      ∀ l ∈ s.clauses.getD ci [], litFalse s l = true) ∧
    s'.prop_queue.length + unassignedCount s' ≤
      s.prop_queue.length + unassignedCount s := by
  unfold processWatchedClause at h
  set w1 := (s.watchers ci).1 with hw1
  set w2 := (s.watchers ci).2 with hw2
  by_cases hw : w1 = target ∨ w2 = target
  case neg =>
    rw [if_neg hw] at h
    cases h
    refine ⟨?_, ?_, ?_, ?_, ?_, ?_, ?_, ?_, ?_, ?_, ?_, ?_, ?_, ?_, ?_, ?_⟩
    · rfl
    · rfl
    · rfl
    · exact fun l hl => hl
    · exact fun l hl => hl
    · exact fun cj _ => rfl
    · exact hQ
    · exact hIdx
    · exact hWC
    · exact hVB
    · exact fun hE => hE
    · exact fun cj _ hok => hok
    · exact fun _ hok => hok
    · exact fun _ hwt => absurd hwt hw
    · intro cj hr
      cases hr
    · exact le_refl _
  case pos =>
    rw [if_pos hw] at h
    simp only at h
    set other := if w1 = target then w2 else w1 with hother
    have hother_mem : other ∈ s.clauses.getD ci [] := by
      rw [hother]
      by_cases h1t : w1 = target
      · rw [if_pos h1t]; exact (hWC ci hci).2
      · rw [if_neg h1t]; exact (hWC ci hci).1
    have hother_ne : other ≠ 0 :=
      (hWF _ (getD_mem_clauses s ci hci) other hother_mem).1
    have hother_le : other.natAbs ≤ s.num_vars :=
      (hWF _ (getD_mem_clauses s ci hci) other hother_mem).2
    have hcases_w : ∀ l, l = w1 ∨ l = w2 → l = target ∨ l = other := by
      intro l hl
      rw [hother]
      by_cases h1t : w1 = target
      · rw [if_pos h1t]
        rcases hl with h2 | h2
        · exact Or.inl (h2.trans h1t)
        · exact Or.inr h2
      · have h2t : w2 = target := by
          rcases hw with hh | hh
          · exact absurd hh h1t
          · exact hh
        rw [if_neg h1t]
        rcases hl with h2 | h2
        · exact Or.inr h2
        · exact Or.inl (h2.trans h2t)
    have hother_is_watch : other = w1 ∨ other = w2 := by
      rw [hother]
      by_cases h1t : w1 = target
      · rw [if_pos h1t]; exact Or.inr rfl
      · rw [if_neg h1t]; exact Or.inl rfl
    by_cases hsat : litSat s other = true
    case pos =>
      rw [if_pos hsat] at h
      cases h
      refine ⟨?_, ?_, ?_, ?_, ?_, ?_, ?_, ?_, ?_, ?_, ?_, ?_, ?_, ?_, ?_, ?_⟩
      · rfl
      · rfl
      · rfl
      · exact fun l hl => hl
      · exact fun l hl => hl
      · exact fun cj _ => rfl
      · exact hQ
      · exact hIdx
      · exact hWC
      · exact hVB
      · exact fun hE => hE
      · exact fun cj _ hok => hok
      · exact fun _ hok => hok
      · intro _ _
        rcases hother_is_watch with ho | ho
        · left
          rw [← hw1, ← ho]
          exact hsat
        · right; left
          rw [← hw2, ← ho]
          exact hsat
      · intro cj hr
        cases hr
      · exact le_refl _
    case neg =>
      rw [if_neg hsat] at h
      have hsatF : litSat s other = false := by
        cases hval : litSat s other
        · rfl
        · exact absurd hval hsat
      cases hfind : (s.clauses.getD ci []).find? (fun lit2 =>
          decide (lit2 ≠ w1) && decide (lit2 ≠ w2) && litNonFalse s lit2) with
      | some lit2 =>
        rw [hfind] at h
        cases h
        have hp := List.find?_some hfind
        have hlit2_mem := List.mem_of_find?_eq_some hfind
        simp only [Bool.and_eq_true, decide_eq_true_eq] at hp
        obtain ⟨⟨hlit2_ne_w1, hlit2_ne_w2⟩, hlit2_nf⟩ := hp
        have hlit2_ne_target : lit2 ≠ target :=
          lit_ne_of_nonFalse_of_false hlit2_nf htf
        set wch : Nat → Int × Int := fun j =>
          if j = ci then (if w1 = target then (lit2, w2) else (w1, lit2))
          else s.watchers j with hwch
        set m1 := wlSet s.watch_lit_to_clauses lit2
          (wlGet s.watch_lit_to_clauses lit2 ++ [ci]) with hm1
        set m2 := wlSet m1 target ((wlGet m1 target).erase ci) with hm2
        have hm1get : ∀ x, wlGet m1 x =
            if x = lit2 then wlGet s.watch_lit_to_clauses lit2 ++ [ci]
            else wlGet s.watch_lit_to_clauses x := by
          intro x; rw [hm1, wlGet_wlSet]
        have hm2get : ∀ x, wlGet m2 x =
            if x = target then (wlGet m1 target).erase ci else wlGet m1 x := by
          intro x; rw [hm2, wlGet_wlSet]
        have hpreserve : ∀ cj x, cj ≠ ci → cj ∈ wlGet s.watch_lit_to_clauses x →
            cj ∈ wlGet m2 x := by
          intro cj x hcj hmem
          rw [hm2get]
          by_cases hx : x = target
          · rw [if_pos hx]
            apply (List.mem_erase_of_ne hcj).mpr
            rw [hm1get]
            by_cases hx2 : target = lit2
            · exact absurd hx2.symm hlit2_ne_target
            · rw [if_neg hx2, ← hx]; exact hmem
          · rw [if_neg hx, hm1get]
            by_cases hx2 : x = lit2
            · rw [if_pos hx2]; exact List.mem_append_left _ (hx2 ▸ hmem)
            · rw [if_neg hx2]; exact hmem
        have hreg_lit2 : ci ∈ wlGet m2 lit2 := by
          rw [hm2get, if_neg hlit2_ne_target, hm1get, if_pos rfl]
          exact List.mem_append_right _ (by simp)
        have hwci : wch ci = (if w1 = target then (lit2, w2) else (w1, lit2)) := by
          rw [hwch]
          exact if_pos rfl
        have hokci : ClauseWatchOK { s with watchers := wch, watch_lit_to_clauses := m2 } ci := by
          have hnf := hlit2_nf
          simp only [litNonFalse, decide_eq_true_eq] at hnf
          have hsat_lit2 : (s.assign_val lit2.natAbs = 0) ∨ litSat s lit2 = true := by
            rcases hnf with h0 | hs1 | hs1
            · exact Or.inl h0
            · refine Or.inr ?_
              simp only [litSat, decide_eq_true_eq]
              exact ⟨by rw [hs1.2]; decide, Or.inl hs1⟩
            · refine Or.inr ?_
              simp only [litSat, decide_eq_true_eq]
              exact ⟨by rw [hs1.2]; decide, Or.inr hs1⟩
          show litSat s (wch ci).1 = true ∨ litSat s (wch ci).2 = true ∨
            (ci ∈ wlGet m2 (wch ci).1 ∧
              (s.assign_val (wch ci).1.natAbs = 0 ∨ -(wch ci).1 ∈ s.prop_queue)) ∨
            (ci ∈ wlGet m2 (wch ci).2 ∧
              (s.assign_val (wch ci).2.natAbs = 0 ∨ -(wch ci).2 ∈ s.prop_queue))
          rw [hwci]
          by_cases h1t : w1 = target
          · rw [if_pos h1t]
            rcases hsat_lit2 with h0 | hs
            · exact Or.inr (Or.inr (Or.inl ⟨hreg_lit2, Or.inl h0⟩))
            · exact Or.inl hs
          · rw [if_neg h1t]
            rcases hsat_lit2 with h0 | hs
            · exact Or.inr (Or.inr (Or.inr ⟨hreg_lit2, Or.inl h0⟩))
            · exact Or.inr (Or.inl hs)
        have hwcj_ne : ∀ cj, cj ≠ ci → wch cj = s.watchers cj := by
          intro cj hcj
          rw [hwch]
          exact if_neg hcj
        refine ⟨?_, ?_, ?_, ?_, ?_, ?_, ?_, ?_, ?_, ?_, ?_, ?_, ?_, ?_, ?_, ?_⟩
        · rfl
        · rfl
        · rfl
        · exact fun l hl => hl
        · exact fun l hl => hl
        · exact hwcj_ne
        · exact hQ
        · -- WatchIdxInv
          intro p hp cj hcj
          show cj < s.clauses.length
          rcases wlSet_mem_cases m1 target _ p hp with h1 | h1
          · rcases wlSet_mem_cases s.watch_lit_to_clauses lit2 _ p h1 with h2 | h2
            · exact hIdx p h2 cj hcj
            · subst h2
              simp only at hcj
              rcases List.mem_append.mp hcj with h3 | h3
              · rcases wlGet_subset_pairs _ _ _ h3 with ⟨q, hq, hq2⟩
                exact hIdx q hq cj hq2
              · simp at h3; omega
          · subst h1
            simp only at hcj
            have h3 := List.mem_of_mem_erase hcj
            rw [hm1get] at h3
            by_cases hx2 : target = lit2
            · exact absurd hx2.symm hlit2_ne_target
            · rw [if_neg hx2] at h3
              rcases wlGet_subset_pairs _ _ _ h3 with ⟨q, hq, hq2⟩
              exact hIdx q hq cj hq2
        · -- WatchersInClause
          intro cj hcj
          show (wch cj).1 ∈ s.clauses.getD cj [] ∧ (wch cj).2 ∈ s.clauses.getD cj []
          rw [hwch]
          simp only
          by_cases hcjci : cj = ci
          · subst hcjci
            rw [if_pos rfl]
            by_cases h1t : w1 = target
            · rw [if_pos h1t]
              exact ⟨hlit2_mem, (hWC cj hcj).2⟩
            · rw [if_neg h1t]
              exact ⟨(hWC cj hcj).1, hlit2_mem⟩
          · rw [if_neg hcjci]
            exact hWC cj hcj
        · exact hVB
        · exact fun hE => hE
        · -- P1: other clauses keep their invariant
          intro cj hcj hok
          show litSat s (wch cj).1 = true ∨ litSat s (wch cj).2 = true ∨
            (cj ∈ wlGet m2 (wch cj).1 ∧
              (s.assign_val (wch cj).1.natAbs = 0 ∨ -(wch cj).1 ∈ s.prop_queue)) ∨
            (cj ∈ wlGet m2 (wch cj).2 ∧
              (s.assign_val (wch cj).2.natAbs = 0 ∨ -(wch cj).2 ∈ s.prop_queue))
          rw [hwcj_ne cj hcj]
          rcases hok with hk | hk | hk | hk
          · exact Or.inl hk
          · exact Or.inr (Or.inl hk)
          · exact Or.inr (Or.inr (Or.inl ⟨hpreserve cj _ hcj hk.1, hk.2⟩))
          · exact Or.inr (Or.inr (Or.inr ⟨hpreserve cj _ hcj hk.1, hk.2⟩))
        · exact fun _ _ => hokci
        · exact fun _ _ => hokci
        · intro cj hr
          cases hr
        · exact le_refl _
      | none =>
        rw [hfind] at h
        have hscan : ∀ l ∈ s.clauses.getD ci [],
            l = w1 ∨ l = w2 ∨ litFalse s l = true := by
          intro l hl
          have hnp := List.find?_eq_none.mp hfind l hl
          by_cases h1 : l = w1
          · exact Or.inl h1
          · by_cases h2 : l = w2
            · exact Or.inr (Or.inl h2)
            · refine Or.inr (Or.inr ?_)
              have hnf : litNonFalse s l = false := by
                cases hval : litNonFalse s l
                · rfl
                · exact absurd (by simp [h1, h2, hval]) hnp
              unfold litFalse
              rw [hnf]
              rfl
        by_cases hvo : s.assign_val other.natAbs ≠ 0
        case pos =>
          rw [if_pos hvo] at h
          cases h
          have hofalse : litFalse s other = true := litFalse_of_not_sat hvo hsatF
          refine ⟨?_, ?_, ?_, ?_, ?_, ?_, ?_, ?_, ?_, ?_, ?_, ?_, ?_, ?_, ?_, ?_⟩
          · rfl
          · rfl
          · rfl
          · exact fun l hl => hl
          · exact fun l hl => hl
          · exact fun cj _ => rfl
          · exact hQ
          · exact hIdx
          · exact hWC
          · exact hVB
          · exact fun hE => hE
          · exact fun cj _ hok => hok
          · intro hr
            cases hr
          · intro hr
            cases hr
          · intro cj hr
            cases hr
            refine ⟨rfl, rfl, ?_⟩
            intro l hl
            rcases hscan l hl with h1 | h1 | h1
            · rcases hcases_w l (Or.inl h1) with h2 | h2
              · rw [h2]; exact htf
              · rw [h2]; exact hofalse
            · rcases hcases_w l (Or.inr h1) with h2 | h2
              · rw [h2]; exact htf
              · rw [h2]; exact hofalse
            · exact h1
          · exact le_refl _
        case neg =>
          rw [if_neg hvo] at h
          cases h
          push_neg at hvo
          have hall : ∀ l ∈ s.clauses.getD ci [],
              l = other ∨ litFalse s l = true := by
            intro l hl
            rcases hscan l hl with h1 | h1 | h1
            · rcases hcases_w l (Or.inl h1) with h2 | h2
              · exact Or.inr (h2 ▸ htf)
              · exact Or.inl h2
            · rcases hcases_w l (Or.inr h1) with h2 | h2
              · exact Or.inr (h2 ▸ htf)
              · exact Or.inl h2
            · exact Or.inr h1
          have hokci : ClauseWatchOK (s.assign_var other s.level (some ci)) ci := by
            have hsat2 := litSat_assign_self s hother_ne s.level (some ci)
            rcases hother_is_watch with ho | ho
            · left
              show litSat _ ((s.assign_var other s.level (some ci)).watchers ci).1 = true
              rw [assign_var_watchers, ← hw1, ← ho]
              exact hsat2
            · right; left
              show litSat _ ((s.assign_var other s.level (some ci)).watchers ci).2 = true
              rw [assign_var_watchers, ← hw2, ← ho]
              exact hsat2
          refine ⟨?_, ?_, ?_, ?_, ?_, ?_, ?_, ?_, ?_, ?_, ?_, ?_, ?_, ?_, ?_, ?_⟩
          · rfl
          · rfl
          · rfl
          · exact fun l hl => litFalse_assign_var hvo _ _ hl
          · exact fun l hl => litSat_assign_var hvo _ _ hl
          · exact fun cj _ => rfl
          · intro l hl
            rw [assign_var_queue] at hl
            rcases List.mem_append.mp hl with h1 | h1
            · exact litSat_assign_var hvo _ _ (hQ l h1)
            · simp at h1; subst h1
              exact litSat_assign_self s hother_ne _ _
          · intro p hp cj hcj
            show cj < s.clauses.length
            exact hIdx p hp cj hcj
          · intro cj hcj
            show ((s.assign_var other s.level (some ci)).watchers cj).1 ∈ _ ∧ _
            rw [assign_var_watchers, assign_var_clauses]
            exact hWC cj (by rw [assign_var_clauses] at hcj; exact hcj)
          · intro v hv
            rw [assign_var_num_vars] at hv
            rw [assign_var_val]
            by_cases hvl : v = other.natAbs
            · rw [if_pos hvl]
              by_cases hpos : 0 < other
              · rw [if_pos hpos]; right; left; rfl
              · rw [if_neg hpos]; right; right; rfl
            · rw [if_neg hvl]; exact hVB v hv
          · intro hE
            exact entailInv_assign_of_clause hE hVB hWF _
              (getD_mem_clauses s ci hci) other hvo hall s.level (some ci)
          · intro cj _ hok
            exact clauseWatchOK_assign_var hvo hother_ne _ _ hok
          · exact fun _ _ => hokci
          · exact fun _ _ => hokci
          · intro cj hr
            cases hr
          · rw [assign_var_queue, List.length_append]
            have := unassignedCount_assign_var s other hother_ne hother_le hvo
              s.level (some ci)
            simp only [List.length_cons, List.length_nil]
            omega

/-- Induction over the snapshot of the watcher list. -/
theorem processWatchList_spec : ∀ (rem : List Nat) (s : CDCLSolver) (target : Int)
    (s' : CDCLSolver) (r : Option Nat),
    processWatchList s target rem = (s', r) →
    QueueInv s → WatchIdxInv s → WatchersInClause s → ValsBounded s → WFState s →
    (∀ ci ∈ rem, ci < s.clauses.length) →
    litFalse s target = true →
    MidWatchInv s target rem →
    s'.clauses = s.clauses ∧ s'.num_vars = s.num_vars ∧ s'.level = s.level ∧
    QueueInv s' ∧ WatchIdxInv s' ∧ WatchersInClause s' ∧ ValsBounded s' ∧
    (EntailInv s → EntailInv s') ∧
    (r = none → WatchInv s') ∧
    (∀ ci, r = some ci → ci < s'.clauses.length ∧
      ∀ l ∈ s'.clauses.getD ci [], litFalse s' l = true) ∧
    s'.prop_queue.length + unassignedCount s' ≤
      s.prop_queue.length + unassignedCount s := by
  intro rem
  induction rem with
  | nil =>
    intro s target s' r h hQ hIdx hWC hVB hWF hrem htf hMid
    simp only [processWatchList] at h
    cases h
    refine ⟨rfl, rfl, rfl, hQ, hIdx, hWC, hVB, fun hE => hE, ?_, ?_, le_refl _⟩
    · intro _
      intro cj hcj
      rcases hMid cj hcj with h1 | h1
      · exact h1
      · simp at h1
    · intro ci hr
      cases hr
  | cons ci rest ih =>
    intro s target s' r h hQ hIdx hWC hVB hWF hrem htf hMid
    simp only [processWatchList] at h
    have hci : ci < s.clauses.length := hrem ci (List.mem_cons_self _ _)
    cases hpc : processWatchedClause s target ci with
    | mk s1 r1 =>
      rw [hpc] at h
      obtain ⟨f1, f2, f3, f4, f5, f6, g1, g2, g3, g4, g5, p1, p2, p3, cc, mm⟩ :=
        processWatchedClause_spec s target ci hQ hIdx hWC hVB hWF hci htf s1 r1 hpc
      cases r1 with
      | some c =>
        simp only at h
        cases h
        obtain ⟨hceq, hseq, hallf⟩ := cc c rfl
        subst hceq
        refine ⟨f1, f2, f3, g1, g2, g3, g4, g5, ?_, ?_, mm⟩
        · intro hr; cases hr
        · intro cj hr
          cases hr
          rw [hseq]
          exact ⟨hci, hallf⟩
      | none =>
        simp only at h
        have hWF1 : WFState s1 := by
          show WFFormula s1.clauses s1.num_vars
          rw [f1, f2]; exact hWF
        have hrem1 : ∀ cj ∈ rest, cj < s1.clauses.length := by
          intro cj hcj
          rw [f1]
          exact hrem cj (List.mem_cons_of_mem _ hcj)
        have htf1 : litFalse s1 target = true := f4 target htf
        have hMid1 : MidWatchInv s1 target rest := by
          intro cj hcj
          rw [f1] at hcj
          by_cases hcjci : cj = ci
          · subst hcjci
            rcases hMid cj hcj with h1 | h1
            · exact Or.inl (p2 rfl h1)
            · exact Or.inl (p3 rfl h1.1)
          · rcases hMid cj hcj with h1 | h1
            · exact Or.inl (p1 cj hcjci h1)
            · refine Or.inr ⟨?_, ?_⟩
              · rw [f6 cj hcjci]
                exact h1.1
              · rcases List.mem_cons.mp h1.2 with h2 | h2
                · exact absurd h2 hcjci
                · exact h2
        obtain ⟨k1, k2, k3, k4, k5, k6, k7, k8, k9, k10, k11⟩ :=
          ih s1 target s' r h g1 g2 g3 g4 hWF1 hrem1 htf1 hMid1
        refine ⟨k1.trans f1, k2.trans f2, k3.trans f3, k4, k5, k6, k7,
          fun hE => k8 (g5 hE), k9, k10, le_trans k11 mm⟩

/-- Conditions holding at the head of each `propagate` iteration. -/
theorem propagate_step_setup (s : CDCLSolver) (lit : Int) (rest : List Int)
    (hq : s.prop_queue = lit :: rest)
    (hQ : QueueInv s) (hIdx : WatchIdxInv s) (hW : WatchInv s) :
    QueueInv { s with prop_queue := rest } ∧
    litFalse { s with prop_queue := rest } (-lit) = true ∧
    (∀ cj ∈ wlGet s.watch_lit_to_clauses (-lit), cj < s.clauses.length) ∧
    MidWatchInv { s with prop_queue := rest } (-lit)
      (wlGet s.watch_lit_to_clauses (-lit)) := by
  have hlit : litSat s lit = true := hQ lit (by rw [hq]; exact List.mem_cons_self _ _)
  refine ⟨?_, ?_, ?_, ?_⟩
  · intro l hl
    exact hQ l (by rw [hq]; exact List.mem_cons_of_mem _ hl)
  · exact litSat_neg_litFalse hlit
  · exact wlGet_forall _ (fun p hp cj hcj => hIdx p hp cj hcj) _
  · intro cj hcj
    rcases hW cj hcj with h1 | h1 | h1 | h1
    · exact Or.inl (Or.inl h1)
    · exact Or.inl (Or.inr (Or.inl h1))
    · rcases h1.2 with h2 | h2
      · exact Or.inl (Or.inr (Or.inr (Or.inl ⟨h1.1, Or.inl h2⟩)))
      · rw [hq] at h2
        rcases List.mem_cons.mp h2 with h3 | h3
        · refine Or.inr ⟨Or.inl ?_, ?_⟩
          · show (s.watchers cj).1 = -lit
            omega
          · have : (s.watchers cj).1 = -lit := by omega
            rw [← this]
            exact h1.1
        · exact Or.inl (Or.inr (Or.inr (Or.inl ⟨h1.1, Or.inr h3⟩)))
    · rcases h1.2 with h2 | h2
      · exact Or.inl (Or.inr (Or.inr (Or.inr ⟨h1.1, Or.inl h2⟩)))
      · rw [hq] at h2
        rcases List.mem_cons.mp h2 with h3 | h3
        · refine Or.inr ⟨Or.inr ?_, ?_⟩
          · show (s.watchers cj).2 = -lit
            omega
          · have : (s.watchers cj).2 = -lit := by omega
            rw [← this]
            exact h1.1
        · exact Or.inl (Or.inr (Or.inr (Or.inr ⟨h1.1, Or.inr h3⟩)))

/-- Specification of `propagate`: invariants are preserved, a `None` result
means quiescence with the full watch invariant, and a returned conflict
clause is entirely false. -/
theorem propagate_spec : ∀ (fuel : Nat) (s s' : CDCLSolver) (r : Option Nat),
    CDCLSolver.propagate fuel s = some (s', r) →
    QueueInv s → WatchIdxInv s → WatchersInClause s → ValsBounded s → WFState s →
    WatchInv s →
    s'.clauses = s.clauses ∧ s'.num_vars = s.num_vars ∧ s'.level = s.level ∧
    QueueInv s' ∧ WatchIdxInv s' ∧ WatchersInClause s' ∧ ValsBounded s' ∧
    WFState s' ∧ (EntailInv s → EntailInv s') ∧
    (r = none → WatchInv s' ∧ s'.prop_queue = []) ∧
    (∀ ci, r = some ci → ci < s'.clauses.length ∧
      ∀ l ∈ s'.clauses.getD ci [], litFalse s' l = true) := by
  intro fuel
  induction fuel with
  | zero =>
    intro s s' r h
    simp [CDCLSolver.propagate] at h
  | succ f ihf =>
    intro s s' r h hQ hIdx hWC hVB hWF hW
    simp only [CDCLSolver.propagate] at h
    cases hq : s.prop_queue with
    | nil =>
      rw [hq] at h
      simp only at h
      cases h
      exact ⟨rfl, rfl, rfl, hQ, hIdx, hWC, hVB, hWF, fun hE => hE,
        fun _ => ⟨hW, hq⟩, fun ci hr => by cases hr⟩
    | cons lit rest =>
      rw [hq] at h
      simp only at h
      set s1 : CDCLSolver := { s with prop_queue := rest } with hs1
      obtain ⟨q1, q2, q3, q4⟩ := propagate_step_setup s lit rest hq hQ hIdx hW
      cases hpl : processWatchList s1 (-lit) (wlGet s1.watch_lit_to_clauses (-lit)) with
      | mk s2 r2 =>
        rw [hpl] at h
        obtain ⟨k1, k2, k3, k4, k5, k6, k7, k8, k9, k10, k11⟩ :=
          processWatchList_spec _ s1 (-lit) s2 r2 hpl q1 hIdx hWC hVB hWF
            q3 q2 q4
        have hWF2 : WFState s2 := by
          show WFFormula s2.clauses s2.num_vars
          rw [k1, k2]
          exact hWF
        cases r2 with
        | some c =>
          simp only at h
          cases h
          refine ⟨k1, k2, k3, k4, k5, k6, k7, hWF2, k8, ?_, k10⟩
          intro hr; cases hr
        | none =>
          simp only at h
          obtain ⟨j1, j2, j3, j4, j5, j6, j7, j8, j9, j10, j11⟩ :=
            ihf s2 s' r h k4 k5 k6 k7 hWF2 (k9 rfl)
          exact ⟨j1.trans k1, j2.trans k2, j3.trans k3, j4, j5, j6, j7, j8,
            fun hE => j9 (k8 hE), j10, j11⟩

/-- With fuel exceeding the measure `queue length + unassigned variables`,
`propagate` cannot run out of fuel. -/
theorem propagate_terminates : ∀ (fuel : Nat) (s : CDCLSolver),
    QueueInv s → WatchIdxInv s → WatchersInClause s → ValsBounded s → WFState s →
    WatchInv s →
    s.prop_queue.length + unassignedCount s < fuel →
    CDCLSolver.propagate fuel s ≠ none := by
  intro fuel
  induction fuel with
  | zero =>
    intro s _ _ _ _ _ _ hm
    omega
  | succ f ihf =>
    intro s hQ hIdx hWC hVB hWF hW hm
    simp only [CDCLSolver.propagate]
    cases hq : s.prop_queue with
    | nil => simp
    | cons lit rest =>
      simp only
      set s1 : CDCLSolver := { s with prop_queue := rest } with hs1
      obtain ⟨q1, q2, q3, q4⟩ := propagate_step_setup s lit rest hq hQ hIdx hW
      cases hpl : processWatchList s1 (-lit) (wlGet s1.watch_lit_to_clauses (-lit)) with
      | mk s2 r2 =>
        obtain ⟨k1, k2, k3, k4, k5, k6, k7, k8, k9, k10, k11⟩ :=
          processWatchList_spec _ s1 (-lit) s2 r2 hpl q1 hIdx hWC hVB hWF
            q3 q2 q4
        cases r2 with
        | some c => simp
        | none =>
          simp only
          have hWF2 : WFState s2 := by
            show WFFormula s2.clauses s2.num_vars
            rw [k1, k2]
            exact hWF
          apply ihf s2 k4 k5 k6 k7 hWF2 (k9 rfl)
          have hlen : s1.prop_queue.length + unassignedCount s1 <
              s.prop_queue.length + unassignedCount s := by
            show rest.length + unassignedCount s1 < s.prop_queue.length + unassignedCount s
            have : unassignedCount s1 = unassignedCount s := rfl
            rw [this, hq]
            simp only [List.length_cons]
            omega
          omega

/-- A literal true under the solver state is true under the printed model. -/
theorem litSat_pyModel {s : CDCLSolver} {l : Int}
    (h : litSat s l = true) : litTrueUnder (pyModel s) l = true := by
  simp only [litSat, decide_eq_true_eq] at h
  unfold litTrueUnder pyModel
  rcases h.2 with ⟨h1, h2⟩ | ⟨h1, h2⟩
  · rw [if_pos h1, h2]
    rfl
  · rw [if_neg (by omega), h2]
    rfl

theorem unassignedCount_le (s : CDCLSolver) : unassignedCount s ≤ s.num_vars := by
  unfold unassignedCount
  calc ((List.range s.num_vars).map (· + 1)).countP _
      ≤ ((List.range s.num_vars).map (· + 1)).length := List.countP_le_length _
    _ = s.num_vars := by rw [List.length_map, List.length_range]

/-- The invariants delivered jointly by `__init__` and the unit pass. -/
theorem init_unit_spec (cl : List Clause) (n : Nat) (s0 s1 : CDCLSolver)
    (b : Bool) (hwf : WFFormula cl n)
    (hinit : CDCLSolver.init cl n = .ok s0)
    (hunit : unitLoop s0 s0.clauses = (s1, b)) :
    s1.clauses = cl ∧ s1.num_vars = n ∧ s1.level = 0 ∧
    QueueInv s1 ∧ WatchIdxInv s1 ∧ WatchersInClause s1 ∧ WatchInv s1 ∧
    ValsBounded s1 ∧ WFState s1 ∧ EntailInv s1 ∧
    (∀ e ∈ s1.assign_stack, e.2.2 = 0) ∧
    (b = false → ¬ Satisfiable cl) := by
  obtain ⟨i1, i2, i3, i4, i5, i6, _i7, _i8, iQ, iIdx, iWC, iW, iVB, iE, _ine⟩ :=
    init_spec cl n s0 hinit
  have hWF0 : WFState s0 := by
    show WFFormula s0.clauses s0.num_vars
    rw [i1, i2]
    exact hwf
  obtain ⟨g1, g2, g3, _g4, _g5, g6, g7, g8, g9, g10, g11, g12, g13⟩ :=
    unitLoop_spec s0.clauses s0 s1 b hunit (fun c hc => hc) iQ iIdx iWC iW iVB hWF0
  refine ⟨g1.trans i1, g2.trans i2, g3.trans i3, g6, g7, g8, g9, g10, ?_,
    g11 iE, ?_, ?_⟩
  · show WFFormula s1.clauses s1.num_vars
    rw [g1, g2]
    exact hWF0
  · intro e he
    rcases g12 e he with h1 | h1
    · rw [i5] at h1
      simp at h1
    · exact h1
  · intro hb
    have := g13 hb iE
    rw [i1] at this
    exact this

/-! ## Claim C1: a SAT answer yields a satisfying model -/

/-- C1 (confirmed): whenever `solve` returns True on a well-formed input,
the model printed by `__main__` — true for every variable whose
`assign_val` is not `-1` — satisfies every original clause. -/
theorem solve_sat_model_satisfies (cl : List Clause) (n : Nat)
    (s0 s' : CDCLSolver) (hwf : WFFormula cl n)
    (hinit : CDCLSolver.init cl n = .ok s0)
    (hsolve : CDCLSolver.solve s0 = .ok (true, s')) :
    formulaSatUnder (pyModel s') cl := by
  unfold CDCLSolver.solve at hsolve
  cases hu : unitLoop s0 s0.clauses with
  | mk s1 b =>
    rw [hu] at hsolve
    cases b with
    | false => simp at hsolve
    | true =>
      simp only at hsolve
      obtain ⟨u1, u2, u3, uQ, uIdx, uWC, uW, uVB, uWF, uE, ulev, _⟩ :=
        init_unit_spec cl n s0 s1 true hwf hinit hu
      cases hp : CDCLSolver.propagate (solveFuel s1) s1 with
      | none => rw [hp] at hsolve; cases hsolve
      | some p =>
        obtain ⟨s2, r2⟩ := p
        rw [hp] at hsolve
        cases r2 with
        | some c => simp at hsolve
        | none =>
          simp only at hsolve
          by_cases hall : allAssigned s2 = true
          · rw [if_pos hall] at hsolve
            cases hsolve
            obtain ⟨p1, p2, _p3, _pQ, _pIdx, pWC, _pVB, _pWF, _pE, pquies, _⟩ :=
              propagate_spec (solveFuel s1) s1 s' none hp uQ uIdx uWC uVB uWF uW
            obtain ⟨pW, pqueue⟩ := pquies rfl
            have hclauses' : s'.clauses = cl := p1.trans u1
            have hnum2 : s'.num_vars = n := p2.trans u2
            intro c hc
            rcases List.mem_iff_getElem.mp hc with ⟨i, hi, hgi⟩
            have hic : i < s'.clauses.length := by rw [hclauses']; exact hi
            have hgetD : s'.clauses.getD i [] = c := by
              rw [hclauses', List.getD_eq_getElem _ _ hi, hgi]
            have hassigned : ∀ w : Int, w ∈ c → s'.assign_val w.natAbs ≠ 0 := by
              intro w hwc
              have hw0 : w ≠ 0 := (hwf c hc w hwc).1
              have hwle : w.natAbs ≤ n := (hwf c hc w hwc).2
              have hmem : w.natAbs - 1 ∈ List.range s'.num_vars := by
                rw [List.mem_range, hnum2]
                omega
              have := List.all_eq_true.mp hall _ hmem
              rw [show w.natAbs - 1 + 1 = w.natAbs by omega] at this
              simpa using this
            have hw1c : (s'.watchers i).1 ∈ c := by
              have := (pWC i hic).1
              rw [hgetD] at this
              exact this
            have hw2c : (s'.watchers i).2 ∈ c := by
              have := (pWC i hic).2
              rw [hgetD] at this
              exact this
            rcases pW i hic with h1 | h1 | h1 | h1
            · exact List.any_eq_true.mpr ⟨_, hw1c, litSat_pyModel h1⟩
            · exact List.any_eq_true.mpr ⟨_, hw2c, litSat_pyModel h1⟩
            · exfalso
              rcases h1.2 with h2 | h2
              · exact hassigned _ hw1c h2
              · rw [pqueue] at h2
                simp at h2
            · exfalso
              rcases h1.2 with h2 | h2
              · exact hassigned _ hw2c h2
              · rw [pqueue] at h2
                simp at h2
          · rw [if_neg hall] at hsolve
            cases hsolve

/-! ## Claim C2: an UNSAT answer is sound -/

/-- C2 (confirmed): whenever `solve` returns False on a well-formed input
(a contradiction among the unit clauses, or a conflict during the initial
level-0 propagation — the only reachable False returns), the input formula
has no satisfying assignment. -/
theorem solve_unsat_sound (cl : List Clause) (n : Nat)
    (s0 s' : CDCLSolver) (hwf : WFFormula cl n)
    (hinit : CDCLSolver.init cl n = .ok s0)
    (hsolve : CDCLSolver.solve s0 = .ok (false, s')) :
    ¬ Satisfiable cl := by
  unfold CDCLSolver.solve at hsolve
  cases hu : unitLoop s0 s0.clauses with
  | mk s1 b =>
    rw [hu] at hsolve
    cases b with
    | false =>
      simp only at hsolve
      obtain ⟨_, _, _, _, _, _, _, _, _, _, _, hunsat⟩ :=
        init_unit_spec cl n s0 s1 false hwf hinit hu
      exact hunsat rfl
    | true =>
      simp only at hsolve
      obtain ⟨u1, u2, _u3, uQ, uIdx, uWC, uW, uVB, uWF, uE, _ulev, _⟩ :=
        init_unit_spec cl n s0 s1 true hwf hinit hu
      cases hp : CDCLSolver.propagate (solveFuel s1) s1 with
      | none => rw [hp] at hsolve; cases hsolve
      | some p =>
        obtain ⟨s2, r2⟩ := p
        rw [hp] at hsolve
        cases r2 with
        | none =>
          simp only at hsolve
          by_cases hall : allAssigned s2 = true
          · rw [if_pos hall] at hsolve
            cases hsolve
          · rw [if_neg hall] at hsolve
            cases hsolve
        | some c =>
          simp only at hsolve
          cases hsolve
          obtain ⟨p1, p2, _p3, _pQ, _pIdx, _pWC, pVB, pWF, pE, _, pconf⟩ :=
            propagate_spec (solveFuel s1) s1 s' (some c) hp uQ uIdx uWC uVB uWF uW
          obtain ⟨hclen, hallf⟩ := pconf c rfl
          have hclauses2 : s'.clauses = cl := p1.trans u1
          intro hsat
          rcases hsat with ⟨M, hM⟩
          have hM2 : formulaSatUnder M s'.clauses := by rw [hclauses2]; exact hM
          have hE2 : EntailInv s' := pE uE
          have hagree : ∀ v, s'.assign_val v ≠ 0 → M v = (s'.assign_val v == 1) :=
            fun v hv => hE2 M hM2 v hv
          have hcmem : s'.clauses.getD c [] ∈ s'.clauses := getD_mem_clauses s' c hclen
          have hsatc : clauseSatUnder M (s'.clauses.getD c []) = true := hM2 _ hcmem
          rcases List.any_eq_true.mp hsatc with ⟨l, hlc, hlt⟩
          have hlne : l ≠ 0 := (pWF _ hcmem l hlc).1
          have hlbound := pVB l.natAbs (pWF _ hcmem l hlc).2
          rw [litFalse_not_true_under hagree hlbound hlne (hallf l hlc)] at hlt
          cases hlt

/-! ## Claim C3 (amended): the missing `pick_branch_var` method -/

/-- C3 (corrected): on a well-formed input, `solve` raises `AttributeError`
exactly when the unit pass succeeds, the initial propagation completes
without conflict, and some variable is still unassigned — at that point
line 130 calls `self.pick_branch_var()`, which the class does not define
(only `branch_var` exists).  `solve` never runs out of the embedding's
propagation fuel on such inputs.  (The claim as frozen is refuted by
`solve_verdict_despite_unassigned_var`: a level-0 conflict returns the
verdict False while a variable is still unassigned.) -/
theorem solve_attribute_error_iff (cl : List Clause) (n : Nat)
    (s0 : CDCLSolver) (hwf : WFFormula cl n)
    (hinit : CDCLSolver.init cl n = .ok s0) :
    (CDCLSolver.solve s0 = .error .attributeError ↔
      ∃ s1 s2, unitLoop s0 s0.clauses = (s1, true) ∧
        CDCLSolver.propagate (solveFuel s1) s1 = some (s2, none) ∧
        allAssigned s2 = false) ∧
    CDCLSolver.solve s0 ≠ .error .outOfFuel := by
  unfold CDCLSolver.solve
  cases hu : unitLoop s0 s0.clauses with
  | mk s1 b =>
    cases b with
    | false =>
      simp only
      constructor
      · constructor
        · intro hc; cases hc
        · intro ⟨s1', s2', hu', _, _⟩
          simp at hu'
      · intro hc; cases hc
    | true =>
      simp only
      obtain ⟨u1, u2, _u3, uQ, uIdx, uWC, uW, uVB, uWF, _uE, _ulev, _⟩ :=
        init_unit_spec cl n s0 s1 true hwf hinit hu
      have hterm : CDCLSolver.propagate (solveFuel s1) s1 ≠ none := by
        apply propagate_terminates (solveFuel s1) s1 uQ uIdx uWC uVB uWF uW
        unfold solveFuel
        have := unassignedCount_le s1
        omega
      cases hp : CDCLSolver.propagate (solveFuel s1) s1 with
      | none => exact absurd hp hterm
      | some p =>
        obtain ⟨s2, r2⟩ := p
        cases r2 with
        | some c =>
          simp only
          constructor
          · constructor
            · intro hc; cases hc
            · intro ⟨s1', s2', hu', hp', _⟩
              injection hu' with h1 _
              subst h1
              rw [hp] at hp'
              simp at hp'
          · intro hc; cases hc
        | none =>
          simp only
          by_cases hall : allAssigned s2 = true
          · rw [if_pos hall]
            constructor
            · constructor
              · intro hc; cases hc
              · intro ⟨s1', s2', hu', hp', hall'⟩
                injection hu' with h1 _
                subst h1
                rw [hp] at hp'
                injection hp' with h2
                injection h2 with h3 _
                subst h3
                rw [hall] at hall'
                cases hall'
            · intro hc; cases hc
          · rw [if_neg hall]
            constructor
            · constructor
              · intro _
                exact ⟨s1, s2, rfl, hp, by
                  cases hv : allAssigned s2
                  · rfl
                  · exact absurd hv hall⟩
              · intro _; rfl
            · intro hc
              cases hc

/-! ## Claim C8 (amended): watched-literal soundness -/

/-- C8 (corrected): from any state satisfying the watch invariants (as
established by construction and preserved by the unit pass), when
`propagate` returns None no clause has both watched literals false, and
every clause index returned as a conflict has all of its literals false.
(The frozen claim additionally asserted that no clause other than the
returned conflict has both watches false at a conflict return; that part is
refuted by `conflict_return_leaves_other_clause_both_false`.) -/
theorem propagate_watch_soundness (fuel : Nat) (s s' : CDCLSolver)
    (r : Option Nat) (hg : GoodState s)
    (hp : CDCLSolver.propagate fuel s = some (s', r)) :
    (r = none → ∀ ci, ci < s'.clauses.length → ¬ bothWatchesFalse s' ci) ∧
    (∀ ci, r = some ci → ci < s'.clauses.length ∧
      ∀ l ∈ s'.clauses.getD ci [], litFalse s' l = true) := by
  obtain ⟨hWF, hQ, hIdx, hWC, hVB, hW⟩ := hg
  obtain ⟨_p1, _p2, _p3, _pQ, _pIdx, _pWC, _pVB, _pWF, _pE, pquies, pconf⟩ :=
    propagate_spec fuel s s' r hp hQ hIdx hWC hVB hWF hW
  refine ⟨?_, pconf⟩
  intro hr ci hci
  obtain ⟨pW, pqueue⟩ := pquies hr
  intro hbf
  unfold bothWatchesFalse at hbf
  obtain ⟨hbf1, hbf2⟩ := hbf
  rcases pW ci hci with h1 | h1 | h1 | h1
  · rw [litSat_not_litFalse h1] at hbf1
    cases hbf1
  · rw [litSat_not_litFalse h1] at hbf2
    cases hbf2
  · rcases h1.2 with h2 | h2
    · have hnf : litNonFalse s' (s'.watchers ci).1 = true := by
        simp only [litNonFalse, decide_eq_true_eq]
        exact Or.inl h2
      simp [litFalse, hnf] at hbf1
    · rw [pqueue] at h2
      simp at h2
  · rcases h1.2 with h2 | h2
    · have hnf : litNonFalse s' (s'.watchers ci).2 = true := by
        simp only [litNonFalse, decide_eq_true_eq]
        exact Or.inl h2
      simp [litFalse, hnf] at hbf2
    · rw [pqueue] at h2
      simp at h2

/-! ## Claim theorems: direct evaluations -/

/-- C4 (code bug): on the level-1 conflict state reached from
`[[-1, -2], [-1, 2]]` by deciding variable 1, conflict analysis returns the
conflict clause `[-1, 2]` unchanged, with TWO literals assigned at the
conflict level instead of exactly one: the backward-resolution search tests
`lit in learned` — the assigned polarity — instead of the negated polarity,
so it finds no pivot (`find? = none`) even though the negation of trail
literal `-2` does appear in the learned clause. -/
theorem resolve_conflict_learned_not_asserting :
    (CDCLSolver.resolve_conflict 10 exampleConflictState 1).map
        (fun p => (p.1, p.2.clauses.getLastD [])) = some (true, [-1, 2]) ∧
    ([-1, 2] : Clause).countP
        (fun l => decide (exampleConflictState.assign_level l.natAbs =
          exampleConflictState.level)) = 2 ∧
    exampleConflictState.assign_stack.reverse.find? (fun e =>
        decide (e.2.2 = exampleConflictState.level) &&
          ([-1, 2] : Clause).contains e.2.1) = none ∧
    ((2, -2, 1) : TrailEntry) ∈ exampleConflictState.assign_stack ∧
    (-(-2) : Int) ∈ ([-1, 2] : Clause) := by decide

/-- C5 (code bug): on the level-2 conflict state over `[[-1, 2]]` the
analysis appends the learned clause, registers it and backjumps to level 1,
but because the learned clause has size 2 it never assigns the asserting
literal `-1` (variable 1 stays unassigned) and enqueues nothing. -/
theorem resolve_conflict_skips_assertion :
    (CDCLSolver.resolve_conflict 10 exampleAssertState 0).map
        (fun p => (p.1, p.2.clauses, p.2.level))
      = some (true, [[-1, 2], [-1, 2]], 1) ∧
    (CDCLSolver.resolve_conflict 10 exampleAssertState 0).map
        (fun p => (p.2.assign_val 1, p.2.assign_stack, p.2.prop_queue))
      = some (0, [(2, -2, 1)], []) := by decide

/-- C6 (code bug): the end-to-end run on `p cnf 2 1 / 0` does not print
UNSAT — `parse_dimacs` silently drops the empty clause, so the solver sees
no clauses and crashes in `pick_branch_var` with `AttributeError`; a solver
constructed directly on the empty clause raises `ValueError` instead of
returning an UNSAT verdict. -/
theorem empty_clause_crashes_not_unsat :
    pyMain ["p cnf 2 1".toList, "0".toList] = .error .attributeError ∧
    pyMain ["p cnf 2 1".toList, "0".toList] ≠ .ok .unsat ∧
    errorOf (CDCLSolver.init [[]] 2) = some .valueError ∧
    parse_dimacs ["p cnf 2 1".toList, "0".toList] = .ok ([], 2) := by decide

/-- C3 counterexample: on `[[1], [2], [-1, -2]]` with three variables the
initial propagation conflicts at level 0 and `solve` returns the verdict
False normally, even though variable 3 (within `num_vars`) is left
unassigned — refuting the claim that any input with an unassigned variable
after initial propagation raises `AttributeError`. -/
theorem solve_verdict_despite_unassigned_var :
    (CDCLSolver.solve exampleConflictInput).map
        (fun p => (p.1, p.2.assign_val 3)) = .ok (false, 0) ∧
    (3 : Nat) ≤ exampleConflictInput.num_vars := by decide

/-- C8 counterexample: on `[[-1], [-2], [1, 2], [1, 2]]` the initial
propagation returns clause 2 as the conflict while the identical clause 3
also has both of its watched literals false at that return point. -/
theorem conflict_return_leaves_other_clause_both_false :
    (CDCLSolver.propagate (solveFuel exampleWatch1) exampleWatch1).map
        (fun p => p.2) = some (some 2) ∧
    bothWatchesFalse exampleWatch2 3 ∧
    3 < exampleWatch2.clauses.length ∧ (3 : Nat) ≠ 2 := by decide


/-! ## Trail-level lemmas for Claim C9 -/

theorem chain_le_of_const {l : List Nat} {L : Nat} (h : ∀ x ∈ l, x = L) :
    List.Chain' (· ≤ ·) l := by
  induction l with
  | nil => exact List.chain'_nil
  | cons x t ih =>
    cases t with
    | nil => exact List.chain'_singleton x
    | cons y t' =>
      refine List.chain'_cons.mpr ⟨?_, ?_⟩
      · rw [h x (List.mem_cons_self x _), h y (List.mem_cons_of_mem x (List.mem_cons_self y t'))]
      · exact ih (fun z hz => h z (List.mem_cons_of_mem x hz))

theorem backtrackAux_monotone : ∀ (f : Nat) (s : CDCLSolver) (bl : Nat),
    TrailMonotone s → TrailMonotone (backtrackAux s bl f) := by
  intro f
  induction f with
  | zero => intro s bl hm; exact hm
  | succ f ih =>
    intro s bl hm
    unfold backtrackAux
    cases hl : s.assign_stack.getLast? with
    | none => exact hm
    | some e =>
      obtain ⟨var, lit, lvl⟩ := e
      simp only
      by_cases hbl : bl < lvl
      · rw [if_pos hbl]
        refine ih _ bl ?_
        show List.Chain' (· ≤ ·) (s.assign_stack.dropLast.map (fun e => e.2.2))
        exact hm.sublist ((List.dropLast_sublist s.assign_stack).map _)
      · rw [if_neg hbl]
        exact hm

theorem processWatchedClause_stack (s : CDCLSolver) (target : Int) (ci : Nat)
    (s' : CDCLSolver) (r : Option Nat)
    (h : processWatchedClause s target ci = (s', r)) :
    s'.level = s.level ∧
    ∀ e ∈ s'.assign_stack, e ∈ s.assign_stack ∨ e.2.2 = s.level := by
  unfold processWatchedClause at h
  set w1 := (s.watchers ci).1 with hw1
  set w2 := (s.watchers ci).2 with hw2
  by_cases hw : w1 = target ∨ w2 = target
  case neg =>
    rw [if_neg hw] at h
    cases h
    exact ⟨rfl, fun e he => Or.inl he⟩
  case pos =>
    rw [if_pos hw] at h
    simp only at h
    set other := if w1 = target then w2 else w1 with hother
    by_cases hsat : litSat s other = true
    case pos =>
      rw [if_pos hsat] at h
      cases h
      exact ⟨rfl, fun e he => Or.inl he⟩
    case neg =>
      rw [if_neg hsat] at h
      cases hfind : (s.clauses.getD ci []).find? (fun lit2 =>
          decide (lit2 ≠ w1) && decide (lit2 ≠ w2) && litNonFalse s lit2) with
      | some lit2 =>
        rw [hfind] at h
        cases h
        exact ⟨rfl, fun e he => Or.inl he⟩
      | none =>
        rw [hfind] at h
        by_cases hval : s.assign_val other.natAbs ≠ 0
        case pos =>
          rw [if_pos hval] at h
          cases h
          exact ⟨rfl, fun e he => Or.inl he⟩
        case neg =>
          rw [if_neg hval] at h
          cases h
          refine ⟨rfl, ?_⟩
          intro e he
          rw [assign_var_stack] at he
          rcases List.mem_append.mp he with h1 | h1
          · exact Or.inl h1
          · right
            rw [List.mem_singleton.mp h1]

theorem processWatchList_stack : ∀ (rem : List Nat) (s : CDCLSolver) (target : Int)
    (s' : CDCLSolver) (r : Option Nat),
    processWatchList s target rem = (s', r) →
    s'.level = s.level ∧
    ∀ e ∈ s'.assign_stack, e ∈ s.assign_stack ∨ e.2.2 = s.level := by
  intro rem
  induction rem with
  | nil =>
    intro s target s' r h
    simp only [processWatchList] at h
    cases h
    exact ⟨rfl, fun e he => Or.inl he⟩
  | cons ci rest ih =>
    intro s target s' r h
    simp only [processWatchList] at h
    cases hpc : processWatchedClause s target ci with
    | mk s1 r1 =>
      rw [hpc] at h
      obtain ⟨l1, st1⟩ := processWatchedClause_stack s target ci s1 r1 hpc
      cases r1 with
      | some c =>
        simp only at h
        cases h
        exact ⟨l1, st1⟩
      | none =>
        simp only at h
        obtain ⟨l2, st2⟩ := ih s1 target s' r h
        refine ⟨l2.trans l1, ?_⟩
        intro e he
        rcases st2 e he with h1 | h1
        · exact st1 e h1
        · exact Or.inr (h1.trans l1)

theorem propagate_stack : ∀ (fuel : Nat) (s s' : CDCLSolver) (r : Option Nat),
    CDCLSolver.propagate fuel s = some (s', r) →
    s'.level = s.level ∧
    ∀ e ∈ s'.assign_stack, e ∈ s.assign_stack ∨ e.2.2 = s.level := by
  intro fuel
  induction fuel with
  | zero =>
    intro s s' r h
    simp [CDCLSolver.propagate] at h
  | succ f ih =>
    intro s s' r h
    simp only [CDCLSolver.propagate] at h
    cases hq : s.prop_queue with
    | nil =>
      rw [hq] at h
      simp only at h
      cases h
      exact ⟨rfl, fun e he => Or.inl he⟩
    | cons lit rest =>
      rw [hq] at h
      simp only at h
      set s1 : CDCLSolver := { s with prop_queue := rest } with hs1
      cases hpl : processWatchList s1 (-lit) (wlGet s1.watch_lit_to_clauses (-lit)) with
      | mk s2 r2 =>
        rw [hpl] at h
        obtain ⟨l2, st2⟩ := processWatchList_stack _ s1 (-lit) s2 r2 hpl
        cases r2 with
        | some c =>
          simp only at h
          cases h
          exact ⟨l2, st2⟩
        | none =>
          simp only at h
          obtain ⟨l3, st3⟩ := ih s2 s' r h
          refine ⟨l3.trans l2, ?_⟩
          intro e he
          rcases st3 e he with h1 | h1
          · exact st2 e h1
          · exact Or.inr (h1.trans l2)

/-- C9: the trail levels are non-decreasing bottom-to-top and the operations
maintain this: `assign_var` pushes at a level no smaller than anything on
the trail, `backtrack` only pops from the top, and every state reached by
the construction, the unit pass and the initial propagation has a monotone
trail (all its entries sit at level 0). -/
theorem trail_levels_monotone :
    (∀ (s : CDCLSolver) (lit : Int) (lvl : Nat) (r : Option Nat),
      TrailMonotone s → (∀ e ∈ s.assign_stack, e.2.2 ≤ lvl) →
      TrailMonotone (s.assign_var lit lvl r)) ∧
    (∀ (s : CDCLSolver) (bl : Nat),
      TrailMonotone s → TrailMonotone (CDCLSolver.backtrack s bl)) ∧
    (∀ (cl : List Clause) (n fuel : Nat) (s0 s1 s2 : CDCLSolver) (b : Bool)
      (r : Option Nat), WFFormula cl n →
      CDCLSolver.init cl n = .ok s0 →
      unitLoop s0 s0.clauses = (s1, b) →
      CDCLSolver.propagate fuel s1 = some (s2, r) →
      TrailMonotone s2) := by
  refine ⟨?_, ?_, ?_⟩
  · intro s lit lvl r hm hle
    show List.Chain' (· ≤ ·) (trailLevels (s.assign_var lit lvl r))
    have : trailLevels (s.assign_var lit lvl r) =
        trailLevels s ++ [lvl] := by
      unfold trailLevels
      rw [assign_var_stack, List.map_append]
      rfl
    rw [this]
    refine List.Chain'.append hm (List.chain'_singleton lvl) ?_
    intro x hx y hy
    have hy3 : y = lvl := by cases hy; rfl
    subst hy3
    have hx2 : x ∈ trailLevels s := by
      obtain ⟨hne, rfl⟩ := List.mem_getLast?_eq_getLast hx
      exact List.getLast_mem hne
    unfold trailLevels at hx2
    rcases List.mem_map.mp hx2 with ⟨e, he, rfl⟩
    exact hle e he
  · intro s bl hm
    exact backtrackAux_monotone _ s bl hm
  · intro cl n fuel s0 s1 s2 b r hwf hinit hunit hprop
    obtain ⟨_, _, hlev1, _, _, _, _, _, _, _, hstack1, _⟩ :=
      init_unit_spec cl n s0 s1 b hwf hinit hunit
    obtain ⟨hlev2, hstack2⟩ := propagate_stack fuel s1 s2 r hprop
    refine chain_le_of_const (L := 0) ?_
    intro x hx
    rcases List.mem_map.mp hx with ⟨e, he, rfl⟩
    rcases hstack2 e he with h1 | h1
    · exact hstack1 e h1
    · exact h1.trans hlev1

/-- Witness for `trail_levels_monotone` at concrete states: a push at the
current decision level, a backjump to level 1, and the propagation endpoint
of the `[[-1], [-2], [1, 2], [1, 2]]` pipeline. -/
theorem trail_levels_monotone_witness :
    TrailMonotone (CDCLSolver.assign_var exampleAssertState 3 2 none) ∧
    TrailMonotone (CDCLSolver.backtrack exampleAssertState 1) ∧
    TrailMonotone exampleWatch2 :=
  ⟨trail_levels_monotone.1 exampleAssertState 3 2 none
     (List.chain'_cons.mpr ⟨by norm_num, List.chain'_singleton 2⟩) (by decide),
   trail_levels_monotone.2.1 exampleAssertState 1
     (List.chain'_cons.mpr ⟨by norm_num, List.chain'_singleton 2⟩),
   trail_levels_monotone.2.2 [[-1], [-2], [1, 2], [1, 2]] 2
     (solveFuel exampleWatch1) exampleWatch0 exampleWatch1 exampleWatch2
     (unitLoop exampleWatch0 exampleWatch0.clauses).2 (some 2)
     (by decide) rfl rfl rfl⟩


/-! ## Conflict-analysis lemmas for Claims C7 and C10 -/

theorem assign_var_activity (s : CDCLSolver) (lit : Int) (lvl : Nat)
    (r : Option Nat) : (s.assign_var lit lvl r).var_activity = s.var_activity := rfl

theorem backtrackAux_activity : ∀ (f : Nat) (s : CDCLSolver) (bl : Nat),
    (backtrackAux s bl f).var_activity = s.var_activity := by
  intro f
  induction f with
  | zero => intro s bl; rfl
  | succ f ih =>
    intro s bl
    unfold backtrackAux
    cases hl : s.assign_stack.getLast? with
    | none => rfl
    | some e =>
      obtain ⟨var, lit, lvl⟩ := e
      simp only
      by_cases hbl : bl < lvl
      · rw [if_pos hbl]
        exact ih _ bl
      · rw [if_neg hbl]

theorem backtrack_activity (s : CDCLSolver) (bl : Nat) :
    (CDCLSolver.backtrack s bl).var_activity = s.var_activity :=
  backtrackAux_activity _ s bl

theorem activity_fold : ∀ (learned : Clause) (a : Nat → ℚ) (v : Nat),
    (learned.foldl (fun (a : Nat → ℚ) l =>
        fun u => if u = l.natAbs then a l.natAbs + 1 else a u) a) v
      = a v + (learned.countP (fun l => decide (l.natAbs = v)) : ℚ) := by
  intro learned
  induction learned with
  | nil => intro a v; simp
  | cons x t ih =>
    intro a v
    simp only [List.foldl_cons]
    rw [ih]
    simp only [List.countP_cons]
    by_cases hx : x.natAbs = v
    · subst hx
      simp
      ring
    · have hd : decide (x.natAbs = v) = false := decide_eq_false hx
      rw [hd, if_neg (fun hc : v = x.natAbs => hx hc.symm)]
      simp

theorem foldl_if_max (f : Int → Nat) (P : Int → Prop) [DecidablePred P] :
    ∀ (l : List Int) (a : Nat),
    l.foldl (fun acc x => if P x ∧ acc < f x then f x else acc) a
      = ((l.filter (fun x => decide (P x))).map f).foldl max a := by
  intro l
  induction l with
  | nil => intro a; rfl
  | cons x t ih =>
    intro a
    simp only [List.foldl_cons, List.filter_cons]
    by_cases hP : P x
    · have hd : decide (P x) = true := decide_eq_true hP
      rw [hd, if_pos rfl]
      simp only [List.map_cons, List.foldl_cons]
      have hmax : (if P x ∧ a < f x then f x else a) = max a (f x) := by
        by_cases h2 : a < f x
        · rw [if_pos ⟨hP, h2⟩]
          omega
        · rw [if_neg (fun hc => h2 hc.2)]
          omega
      rw [hmax, ih]
    · have hd : decide (P x) = false := decide_eq_false hP
      rw [hd, if_neg Bool.false_ne_true, if_neg (fun hc => hP hc.1), ih]

theorem ite_or {α : Type} {c : Prop} [Decidable c] {x y z : α}
    (h : (if c then x else y) = z) : x = z ∨ y = z := by
  by_cases hc : c
  · rw [if_pos hc] at h
    exact Or.inl h
  · rw [if_neg hc] at h
    exact Or.inr h

theorem resolve_conflict_post (fuel : Nat) (s : CDCLSolver) (ci : Nat)
    (b : Bool) (s' : CDCLSolver) (learned : Clause)
    (hlvl : ¬ s.level = 0)
    (hres : CDCLSolver.resolve_conflict fuel s ci = some (b, s'))
    (hcl : computeLearned { s with conflict_count := s.conflict_count + 1 } fuel
      (s.clauses.getD ci []) = some learned) :
    s'.level = learned.foldl (fun acc l =>
        if s.assign_level l.natAbs ≠ s.level ∧ acc < s.assign_level l.natAbs
        then s.assign_level l.natAbs else acc) 0 ∧
    ∀ v, s'.var_activity v =
      (if (s.conflict_count + 1) % s.decay_interval = 0 then
        (fun w => if 1 ≤ w ∧ w ≤ s.num_vars then
            (learned.foldl (fun (a : Nat → ℚ) l =>
                fun u => if u = l.natAbs then a l.natAbs + 1 else a u)
              s.var_activity) w * s.decay
          else (learned.foldl (fun (a : Nat → ℚ) l =>
                fun u => if u = l.natAbs then a l.natAbs + 1 else a u)
              s.var_activity) w)
       else (learned.foldl (fun (a : Nat → ℚ) l =>
            fun u => if u = l.natAbs then a l.natAbs + 1 else a u)
          s.var_activity)) v := by
  unfold CDCLSolver.resolve_conflict at hres
  rw [if_neg hlvl] at hres
  simp only at hres
  rw [hcl] at hres
  simp only at hres
  split at hres
  · cases hres
    refine ⟨rfl, ?_⟩
    intro v
    simp only [backtrack_activity]
  · rcases ite_or hres with h1 | h1
    · rcases ite_or h1 with h2 | h2
      · cases h2
        refine ⟨rfl, ?_⟩
        intro v
        simp only [assign_var_activity, backtrack_activity]
      · cases h2
        refine ⟨rfl, ?_⟩
        intro v
        simp only [backtrack_activity]
    · cases h1
      refine ⟨rfl, ?_⟩
      intro v
      simp only [backtrack_activity]


/-! ## Claim C7: the backjump level -/

/-- C7: when conflict analysis runs on an asserting clause — `aLit` is the
unique literal of the learned clause assigned at the conflict level — the
backjump level installed in the returned state equals the maximum decision
level over the learned clause's literals excluding the asserting literal
(line 186's `max(...)` over levels different from the current one), and it
equals 0 when the learned clause is unit. -/
theorem backjump_level_correct (fuel : Nat) (s : CDCLSolver) (ci : Nat)
    (b : Bool) (s' : CDCLSolver) (learned : Clause) (aLit : Int)
    (hlvl : ¬ s.level = 0)
    (hres : CDCLSolver.resolve_conflict fuel s ci = some (b, s'))
    (hcl : computeLearned { s with conflict_count := s.conflict_count + 1 } fuel
      (s.clauses.getD ci []) = some learned)
    (ha : aLit ∈ learned)
    (haLvl : s.assign_level aLit.natAbs = s.level)
    (huniq : ∀ l ∈ learned, l ≠ aLit → s.assign_level l.natAbs ≠ s.level) :
    s'.level = ((learned.filter (fun l => decide (l ≠ aLit))).map
        (fun l => s.assign_level l.natAbs)).foldl max 0 ∧
    (learned.length = 1 → s'.level = 0) := by
  have hlev := (resolve_conflict_post fuel s ci b s' learned hlvl hres hcl).1
  have hswitch : learned.filter (fun l => decide (s.assign_level l.natAbs ≠ s.level))
      = learned.filter (fun l => decide (l ≠ aLit)) := by
    apply List.filter_congr
    intro l hl
    apply decide_eq_decide.mpr
    constructor
    · intro hne heq
      rw [heq] at hne
      exact hne haLvl
    · intro hne
      exact huniq l hl hne
  have hmain : s'.level = ((learned.filter (fun l => decide (l ≠ aLit))).map
      (fun l => s.assign_level l.natAbs)).foldl max 0 := by
    rw [hlev, foldl_if_max (fun l => s.assign_level l.natAbs)
      (fun l => s.assign_level l.natAbs ≠ s.level) learned 0, hswitch]
  refine ⟨hmain, ?_⟩
  intro hlen
  have hsingle : learned = [aLit] := by
    cases learned with
    | nil => cases ha
    | cons x t =>
      cases t with
      | nil =>
        have hx := List.mem_singleton.mp ha
        rw [hx]
      | cons y u => simp at hlen
  rw [hmain, hsingle]
  simp

/-- Witness for `backjump_level_correct`: the asserting conflict clause
`[-1, 2]` at level 2 (variable 1 at level 2, variable 2 at level 1)
backjumps to level 1 = the level of its sole non-asserting literal. -/
theorem backjump_level_correct_witness :
    exampleAssertResult.level = ((([-1, 2] : Clause).filter
        (fun l => decide (l ≠ -1))).map
        (fun l => exampleAssertState.assign_level l.natAbs)).foldl max 0 ∧
    (([-1, 2] : Clause).length = 1 → exampleAssertResult.level = 0) :=
  backjump_level_correct 10 exampleAssertState 0 true exampleAssertResult
    [-1, 2] (-1) (by decide) rfl rfl (by decide) (by decide) (by decide)

/-! ## Claim C10: activity bumps and decay -/

/-- C10 counterexample: on the conflict clause `[1, 1]` with its duplicated
literal, conflict analysis bumps variable 1 once per occurrence — its
activity goes from 0 to 2, not to 1 — refuting the claim that each variable
appearing in the learned clause is incremented by exactly 1. -/
theorem activity_double_bump_on_duplicate :
    computeLearned { exampleDupState with
        conflict_count := exampleDupState.conflict_count + 1 } 10
      (exampleDupState.clauses.getD 0 []) = some [1, 1] ∧
    CDCLSolver.resolve_conflict 10 exampleDupState 0 =
      some (true, exampleDupResult) ∧
    exampleDupState.var_activity 1 = 0 ∧
    exampleDupResult.var_activity 1 = 2 ∧
    (2 : ℚ) ≠ 0 + 1 :=
  ⟨rfl, rfl, rfl, by show (0 : ℚ) + 1 + 1 = 2; norm_num, by norm_num⟩

/-- C10 (corrected): on a conflict at positive decision level, the activity
of a variable is incremented by 1 for each occurrence of one of its
literals in the learned clause (not once per variable), and on every 50th
conflict all activities, bumps included, are then multiplied by the decay
factor 0.95, which lies strictly between 0 and 1. -/
theorem activity_update_per_occurrence (fuel : Nat) (s : CDCLSolver) (ci : Nat)
    (b : Bool) (s' : CDCLSolver) (learned : Clause)
    (hlvl : ¬ s.level = 0)
    (hres : CDCLSolver.resolve_conflict fuel s ci = some (b, s'))
    (hcl : computeLearned { s with conflict_count := s.conflict_count + 1 } fuel
      (s.clauses.getD ci []) = some learned)
    (hdecay : s.decay = 19 / 20) (hdi : s.decay_interval = 50) :
    (0 : ℚ) < s.decay ∧ s.decay < 1 ∧
    ∀ v, 1 ≤ v → v ≤ s.num_vars →
      s'.var_activity v =
        if (s.conflict_count + 1) % 50 = 0 then
          (s.var_activity v +
            (learned.countP (fun l => decide (l.natAbs = v)) : ℚ)) * s.decay
        else
          s.var_activity v +
            (learned.countP (fun l => decide (l.natAbs = v)) : ℚ) := by
  refine ⟨by rw [hdecay]; norm_num, by rw [hdecay]; norm_num, ?_⟩
  intro v h1 h2
  have hpost := (resolve_conflict_post fuel s ci b s' learned hlvl hres hcl).2 v
  rw [hdi] at hpost
  rw [hpost, apply_ite (fun (f : Nat → ℚ) => f v)]
  by_cases hc : (s.conflict_count + 1) % 50 = 0
  · rw [if_pos hc, if_pos hc]
    simp only [activity_fold]
    rw [if_pos ⟨h1, h2⟩]
  · rw [if_neg hc, if_neg hc]
    simp only [activity_fold]

/-- Witness for `activity_update_per_occurrence` on the duplicated clause
`[1, 1]`: both occurrences of variable 1 are counted. -/
theorem activity_update_per_occurrence_witness :
    exampleDupResult.var_activity 1 =
      if (exampleDupState.conflict_count + 1) % 50 = 0 then
        (exampleDupState.var_activity 1 +
          (([1, 1] : Clause).countP (fun l => decide (l.natAbs = 1)) : ℚ)) *
          exampleDupState.decay
      else
        exampleDupState.var_activity 1 +
          (([1, 1] : Clause).countP (fun l => decide (l.natAbs = 1)) : ℚ) :=
  (activity_update_per_occurrence 10 exampleDupState 0 true exampleDupResult
    [1, 1] (by decide) rfl rfl rfl rfl).2.2 1 (by decide) (by decide)


/-! ## Witnesses for the driver-level claim theorems -/

/-- Witness for `solve_sat_model_satisfies`: on `[[1], [2]]` the solver
returns SAT and the printed model satisfies the formula. -/
theorem solve_sat_model_satisfies_witness :
    formulaSatUnder (pyModel (solvedState (CDCLSolver.solve exampleSatInput)))
      [[1], [2]] :=
  solve_sat_model_satisfies [[1], [2]] 2 exampleSatInput
    (solvedState (CDCLSolver.solve exampleSatInput)) (by decide) rfl rfl

/-- Witness for `solve_unsat_sound`: the contradictory units `[[1], [-1]]`
are reported UNSAT and are indeed unsatisfiable. -/
theorem solve_unsat_sound_witness : ¬ Satisfiable [[1], [-1]] :=
  solve_unsat_sound [[1], [-1]] 1 exampleUnsatInput
    (solvedState (CDCLSolver.solve exampleUnsatInput)) (by decide) rfl rfl

/-- Witness for `solve_attribute_error_iff` on `[[1, 2]]`: both variables
survive the initial propagation unassigned, so `solve` raises
`AttributeError` and never runs out of fuel. -/
theorem solve_attribute_error_iff_witness :
    (CDCLSolver.solve exampleBranchInput = .error .attributeError ↔
      ∃ s1 s2, unitLoop exampleBranchInput exampleBranchInput.clauses = (s1, true) ∧
        CDCLSolver.propagate (solveFuel s1) s1 = some (s2, none) ∧
        allAssigned s2 = false) ∧
    CDCLSolver.solve exampleBranchInput ≠ .error .outOfFuel :=
  solve_attribute_error_iff [[1, 2]] 2 exampleBranchInput (by decide) rfl

/-- Witness for `propagate_watch_soundness`: the initial propagation on
`[[-1], [-2], [1, 2], [1, 2]]` starts from a state satisfying all watch
invariants and reports conflict clause 2 with every literal false. -/
theorem propagate_watch_soundness_witness :
    ((some 2 : Option Nat) = none → ∀ ci, ci < exampleWatch2.clauses.length →
      ¬ bothWatchesFalse exampleWatch2 ci) ∧
    (∀ ci, (some 2 : Option Nat) = some ci → ci < exampleWatch2.clauses.length ∧
      ∀ l ∈ exampleWatch2.clauses.getD ci [], litFalse exampleWatch2 l = true) :=
  propagate_watch_soundness (solveFuel exampleWatch1) exampleWatch1
    exampleWatch2 (some 2) (by decide) rfl

end PyCDCL
